import Mathlib

/-!
Verification of the osdf dual-layout tabular container core
(src/containers of this repository).

The C++ sources embedded here are the container headers
(FrameCols.h, FrameRows.h, FrameColsData.h, FrameRowsData.h, ViewRows.h,
ViewRowsData.h, ViewCols.h, ViewColsData.h) and ViewRows.cpp /
FunctionsRows.cpp.  The corresponding .cpp implementation files of
FrameCols, FrameRows, FrameColsData, FrameRowsData, ViewCols, ViewColsData,
ViewRowsData, Functions, FunctionsCols, ColumnMetadata, ColumnMetadatum,
DataRow, Datum and Constants.h are not part of the source tree; every
definition modelling one of those carries a doc comment starting
`Modelled from the spec:` and is faithful to the specification text.

Modelling conventions:
* machine integers (std::int8_t .. std::int64_t) are modelled as `Int`
  (no arithmetic near overflow occurs in the modelled code);
* `float`/`double` cell payloads are modelled as `ℚ` (exact values; NaN
  and rounding are out of scope);
* `std::int8_t` used as a boolean flag is modelled as `Bool`;
* `std::sort` (an unspecified compare-based sort) is modelled by an
  insertion sort `stdSortModel`; for the strict-weak-order comparators the
  code uses, any conforming sort produces a list sorted with respect to
  the comparator, which is the only property relied upon;
* raw `DataRow*` pointers held by a row-priority view are modelled as
  indices into the parent frame's row vector.
-/

namespace osdf

/-- Modelled from the spec: the closed type-tag enumeration
{Int8, Int16, Int32, Int64, Float, Double, String} of Constants.h
(`consts::eDataTypes`), which is not in the source tree. -/
inductive DataType where
  | eInt8
  | eInt16
  | eInt32
  | eInt64
  | eFloat
  | eDouble
  | eString
  deriving DecidableEq, Repr

/-- Modelled from the spec: the column permission enumeration
{read-write, read-only} of Constants.h (`consts::eReadWrite`,
`consts::eReadOnly`), which is not in the source tree. -/
inductive Permission where
  | eReadWrite
  | eReadOnly
  deriving DecidableEq, Repr

/-- Modelled from the spec: the five-value comparison enumeration
{<, <=, ==, >=, >} of Constants.h (`consts::eComparisons`), which is not
in the source tree. -/
inductive Comparison where
  | eLessThan
  | eLessThanOrEqualTo
  | eEqualTo
  | eGreaterThanOrEqualTo
  | eGreaterThan
  deriving DecidableEq, Repr

/-- Modelled from the spec: the sort direction enumeration
{ascending, descending} of Constants.h, which is not in the source tree. -/
inductive SortOrder where
  | eAscending
  | eDescending
  deriving DecidableEq, Repr

/-- A type-erased cell value: `Datum<T>` behind a `DatumBase`/`DataBase`
handle, with T one of the seven supported types.  `float`/`double`
payloads are modelled as rationals. -/
inductive DatumVal where
  | vInt8 (v : Int)
  | vInt16 (v : Int)
  | vInt32 (v : Int)
  | vInt64 (v : Int)
  | vFloat (v : ℚ)
  | vDouble (v : ℚ)
  | vString (v : String)
  deriving DecidableEq, Repr

namespace DatumVal

/-- The runtime type tag carried alongside a datum. -/
def type : DatumVal → DataType
  | vInt8 _ => DataType.eInt8
  | vInt16 _ => DataType.eInt16
  | vInt32 _ => DataType.eInt32
  | vInt64 _ => DataType.eInt64
  | vFloat _ => DataType.eFloat
  | vDouble _ => DataType.eDouble
  | vString _ => DataType.eString

/-- A default datum used as the out-of-range placeholder of list indexing
(the C++ code never reads out of range; this value is unobservable). -/
def dflt : DatumVal := vInt8 0

end DatumVal

/-- Modelled from the spec: `Functions::compareDatums(a, b)`, the
ascending-order less-than over two type-erased cells (Functions.cpp is
not in the source tree).  Values of distinct runtime types are
incomparable (the code only ever compares cells of one column, which
share a type). -/
def compareDatums : DatumVal → DatumVal → Bool
  | DatumVal.vInt8 a, DatumVal.vInt8 b => a < b
  | DatumVal.vInt16 a, DatumVal.vInt16 b => a < b
  | DatumVal.vInt32 a, DatumVal.vInt32 b => a < b
  | DatumVal.vInt64 a, DatumVal.vInt64 b => a < b
  | DatumVal.vFloat a, DatumVal.vFloat b => a < b
  | DatumVal.vDouble a, DatumVal.vDouble b => a < b
  | DatumVal.vString a, DatumVal.vString b => a < b
  | _, _ => false

/-- Modelled from the spec: `Functions::compareToThreshold(op, threshold,
value)`, the five comparisons used by row slicing (Functions.cpp is not in
the source tree).  The comparison is `value op threshold`. -/
def compareToThreshold (op : Comparison) (threshold value : DatumVal) : Bool :=
  match op with
  | Comparison.eLessThan => compareDatums value threshold
  | Comparison.eLessThanOrEqualTo => compareDatums value threshold || value == threshold
  | Comparison.eEqualTo => value == threshold
  | Comparison.eGreaterThanOrEqualTo => compareDatums threshold value || value == threshold
  | Comparison.eGreaterThan => compareDatums threshold value

/-- Swap the elements at positions `p` and `q` of a list (model of
`std::swap` applied to two vector slots). -/
def listSwap {α : Type} (l : List α) (p q : Nat) (d : α) : List α :=
  (l.set p (l.getD q d)).set q (l.getD p d)

/-! Model of `std::sort`: an insertion sort.  `std::sort` is an unspecified
comparison sort; the code relies only on its postcondition (the output is a
permutation of the input, sorted with respect to the strict-weak-order
comparator), which this model satisfies. -/

/-- Insert one element into a sorted list. -/
def sortInsert {α : Type} (le : α → α → Bool) (x : α) : List α → List α
  | [] => [x]
  | y :: ys => if le x y then x :: y :: ys else y :: sortInsert le x ys

/-- Model of `std::sort` over a comparator. -/
def stdSortModel {α : Type} (le : α → α → Bool) : List α → List α
  | [] => []
  | x :: xs => sortInsert le x (stdSortModel le xs)

/-! The in-place cycle-following permutation apply shared by
`FrameRows::reorderDataRows` (FrameRows.h lines 197-204),
`ViewRows::reorderDataRows` (ViewRows.h lines 101-111) and
`ViewRows::sortRows(columnName, func)` (ViewRows.cpp lines 126-136):

    for (std::size_t i = 0; i < sizeRowsSz; ++i) {
      while (indices.at(i) != indices.at(static_cast<std::size_t>(indices.at(i)))) {
        const std::size_t iIdx = static_cast<std::size_t>(indices.at(i));
        std::swap(rows.at(indices.at(i)), rows.at(indices.at(iIdx)));
        std::swap(indices.at(i), indices.at(iIdx));
      }
    }

The while loop is modelled with explicit fuel `n` (the list length); the
termination argument proved below (`cycleMeasure` strictly decreases and is
bounded by `n`) shows this fuel always suffices, so the model computes the
exact same final state as the unbounded loop. -/

/-- The while loop of the cycle-following apply, at outer index `i`. -/
def cycleInner {ρ : Type} (d : ρ) (i : Nat) : Nat → List Nat → List ρ → List Nat × List ρ
  | 0, v, a => (v, a)
  | fuel + 1, v, a =>
    if v.getD i 0 ≠ v.getD (v.getD i 0) 0 then
      cycleInner d i fuel (listSwap v i (v.getD i 0) 0)
        (listSwap a (v.getD i 0) (v.getD (v.getD i 0) 0) d)
    else (v, a)

/-- The outer for loop of the cycle-following apply. -/
def cycleOuter {ρ : Type} (d : ρ) : List Nat → List Nat → List ρ → List Nat × List ρ
  | [], v, a => (v, a)
  | i :: is, v, a =>
    cycleOuter d is (cycleInner d i v.length v a).1 (cycleInner d i v.length v a).2

/-- The complete in-place permutation apply: outer loop over all row
positions. -/
def applyCyclePerm {ρ : Type} (d : ρ) (v : List Nat) (a : List ρ) : List ρ :=
  (cycleOuter d (List.range a.length) v a).2

/-- Loop invariant of the cycle-following apply, relating the current state
`(v, a)` to the initial state `(v0, a0)`. -/
def CycleInv {ρ : Type} (d : ρ) (v0 : List Nat) (a0 : List ρ)
    (v : List Nat) (a : List ρ) : Prop :=
  v.length = v0.length ∧ a.length = a0.length ∧ v.length = a.length ∧
  (∀ x ∈ v, x < a.length) ∧
  (∀ p q : Nat, p < v.length → q < v.length → v.getD p 0 = v.getD q 0 → p = q) ∧
  (∀ j : Nat, j < v.length → a.getD (v.getD j 0) d = a0.getD (v0.getD j 0) d)

/-- Number of non-fixed positions of the index list: the termination measure
of the while loop. -/
def cycleMeasure (v : List Nat) : Nat :=
  ((Finset.range v.length).filter (fun j => v.getD j 0 ≠ j)).card

/-! Schema primitives. -/

/-- Modelled from the spec: `ColumnMetadatum` (ColumnMetadatum.h/.cpp are
not in the source tree): per-column schema entry {name (unique within a
schema), type tag, permission, display width (print-only)}. -/
structure ColumnMetadatum where
  name : String
  type : DataType
  permission : Permission
  width : Int
  deriving DecidableEq, Repr

/-- Default schema entry used as the out-of-range placeholder of list
indexing (never read by the modelled code paths). -/
def ColumnMetadatum.dflt : ColumnMetadatum :=
  ⟨"", DataType.eInt8, Permission.eReadWrite, 0⟩

/-- Modelled from the spec: `ColumnMetadata` (ColumnMetadata.h/.cpp are not
in the source tree): the ordered schema plus the running `maxId` counter
(highest row id ever assigned, used only for print alignment). -/
structure ColumnMetadata where
  columns : List ColumnMetadatum
  maxId : Int
  deriving DecidableEq, Repr

namespace ColumnMetadata

/-- Modelled from the spec: a default-constructed `ColumnMetadata` is empty
with a zero `maxId`. -/
def empty : ColumnMetadata := ⟨[], 0⟩

/-- Modelled from the spec: `updateMaxId(id)` raises the running counter to
the given row id when larger. -/
def updateMaxId (m : ColumnMetadata) (rowId : Int) : ColumnMetadata :=
  { m with maxId := max m.maxId rowId }

/-- Modelled from the spec: `resetMaxId()` resets the print-alignment
counter before a recomputation pass. -/
def resetMaxId (m : ColumnMetadata) : ColumnMetadata :=
  { m with maxId := 0 }

/-- Modelled from the spec: `columnExists(name)`, a linear scan. -/
def columnExists (m : ColumnMetadata) (name : String) : Bool :=
  m.columns.any (fun cm => cm.name == name)

/-- Modelled from the spec: `getIndex(name)`, a linear scan returning the
column index; `none` models the `kErrorReturnValue` sentinel. -/
def getIndex (m : ColumnMetadata) (name : String) : Option Nat :=
  m.columns.findIdx? (fun cm => cm.name == name)

/-- The type tag of the column at an index. -/
def getType (m : ColumnMetadata) (i : Nat) : DataType :=
  (m.columns.getD i ColumnMetadatum.dflt).type

/-- The permission of the column at an index. -/
def getPermission (m : ColumnMetadata) (i : Nat) : Permission :=
  (m.columns.getD i ColumnMetadatum.dflt).permission

/-- The name of the column at an index. -/
def getName (m : ColumnMetadata) (i : Nat) : String :=
  (m.columns.getD i ColumnMetadatum.dflt).name

end ColumnMetadata

/-- Modelled from the spec: `DataRow` (DataRow.h/.cpp are not in the source
tree): one row id plus the ordered sequence of owned cell handles. -/
structure DataRow where
  id : Int
  columns : List DatumVal
  deriving DecidableEq, Repr

namespace DataRow

/-- `DataRow::getColumn(index)`. -/
def getColumn (r : DataRow) (i : Nat) : DatumVal := r.columns.getD i DatumVal.dflt

/-- Default row used as the out-of-range placeholder of list indexing
(never read by the modelled code paths). -/
def dflt : DataRow := ⟨0, []⟩

end DataRow

/-! The two mutable data models. -/

/-- `FrameRowsData` (FrameRowsData.h): the row-priority data model
{columnMetadata, dataRows}.  The member functions below that have no
implementation under src/ are modelled from the spec where noted. -/
structure FrameRowsData where
  columnMetadata : ColumnMetadata
  dataRows : List DataRow
  deriving DecidableEq, Repr

namespace FrameRowsData

/-- Modelled from the spec: an empty data model (the default Frame state). -/
def empty : FrameRowsData := ⟨ColumnMetadata.empty, []⟩

def getSizeCols (f : FrameRowsData) : Nat := f.columnMetadata.columns.length

def getSizeRows (f : FrameRowsData) : Nat := f.dataRows.length

def getMaxId (f : FrameRowsData) : Int := f.columnMetadata.maxId

def columnExists (f : FrameRowsData) (name : String) : Bool :=
  f.columnMetadata.columnExists name

def getIndex (f : FrameRowsData) (name : String) : Option Nat :=
  f.columnMetadata.getIndex name

def getType (f : FrameRowsData) (i : Nat) : DataType := f.columnMetadata.getType i

def getPermission (f : FrameRowsData) (i : Nat) : Permission :=
  f.columnMetadata.getPermission i

/-- `FrameRowsData::getDataRow(index)` (FrameRowsData.h lines 110-111),
modelled with a default for the never-exercised out-of-range case. -/
def getDataRow (f : FrameRowsData) (i : Nat) : DataRow := f.dataRows.getD i DataRow.dflt

/-- Modelled from the spec: `FrameRowsData::appendNewRow` appends the
committed row and updates the running `maxId` in the column metadata with
the new row id. -/
def appendNewRow (f : FrameRowsData) (row : DataRow) : FrameRowsData :=
  { columnMetadata := f.columnMetadata.updateMaxId row.id,
    dataRows := f.dataRows ++ [row] }

/-- Modelled from the spec: `removeRow(index)` erases one DataRow. -/
def removeRow (f : FrameRowsData) (i : Nat) : FrameRowsData :=
  { f with dataRows := f.dataRows.eraseIdx i }

/-- Modelled from the spec: `removeColumn(index)` erases the schema entry
and the matching cell from every DataRow. -/
def removeColumn (f : FrameRowsData) (i : Nat) : FrameRowsData :=
  { columnMetadata := { f.columnMetadata with
      columns := f.columnMetadata.columns.eraseIdx i },
    dataRows := f.dataRows.map (fun r => ⟨r.id, r.columns.eraseIdx i⟩) }

/-- Modelled from the spec: `initialise(N)` creates N DataRows with ids
0..N-1 and no cells, and records the highest created id in `maxId`. -/
def initialise (f : FrameRowsData) (n : Nat) : FrameRowsData :=
  { columnMetadata := (List.range n).foldl
      (fun m j => m.updateMaxId (Int.ofNat j)) f.columnMetadata,
    dataRows := (List.range n).map (fun j => ⟨Int.ofNat j, []⟩) }

/-- Modelled from the spec: `clear()` resets to the empty state. -/
def clear (_ : FrameRowsData) : FrameRowsData := empty

end FrameRowsData

/-- `FrameColsData` (FrameColsData.h): the column-priority data model
{columnMetadata, ids, dataColumns}; each data column is one type-erased
value array.  The member functions below that have no implementation under
src/ are modelled from the spec where noted. -/
structure FrameColsData where
  columnMetadata : ColumnMetadata
  ids : List Int
  dataColumns : List (List DatumVal)
  deriving DecidableEq, Repr

namespace FrameColsData

/-- Modelled from the spec: an empty data model (the default Frame state). -/
def empty : FrameColsData := ⟨ColumnMetadata.empty, [], []⟩

def getSizeCols (f : FrameColsData) : Nat := f.columnMetadata.columns.length

def getSizeRows (f : FrameColsData) : Nat := f.ids.length

def getMaxId (f : FrameColsData) : Int := f.columnMetadata.maxId

def columnExists (f : FrameColsData) (name : String) : Bool :=
  f.columnMetadata.columnExists name

def getIndex (f : FrameColsData) (name : String) : Option Nat :=
  f.columnMetadata.getIndex name

def getType (f : FrameColsData) (i : Nat) : DataType := f.columnMetadata.getType i

def getPermission (f : FrameColsData) (i : Nat) : Permission :=
  f.columnMetadata.getPermission i

def getDataColumn (f : FrameColsData) (i : Nat) : List DatumVal :=
  f.dataColumns.getD i []

/-- Modelled from the spec: `FrameColsData::appendNewRow(DataRow)` appends
one value per existing column, one new id, and updates `maxId`
(FrameColsData.h lines 60-62 and 81-84). -/
def appendNewRow (f : FrameColsData) (row : DataRow) : FrameColsData :=
  { columnMetadata := f.columnMetadata.updateMaxId row.id,
    ids := f.ids ++ [row.id],
    dataColumns := List.zipWith (fun col v => col ++ [v]) f.dataColumns row.columns }

/-- Modelled from the spec: `removeRow(index)` erases the id and the
corresponding element of every column array. -/
def removeRow (f : FrameColsData) (i : Nat) : FrameColsData :=
  { f with ids := f.ids.eraseIdx i,
           dataColumns := f.dataColumns.map (fun col => col.eraseIdx i) }

/-- Modelled from the spec: `removeColumn(index)` erases the schema entry
and the column array at the index. -/
def removeColumn (f : FrameColsData) (i : Nat) : FrameColsData :=
  { f with columnMetadata := { f.columnMetadata with
             columns := f.columnMetadata.columns.eraseIdx i },
           dataColumns := f.dataColumns.eraseIdx i }

/-- Modelled from the spec: `initialise(N)` materialises ids 0..N-1 and
records the highest created id in `maxId`. -/
def initialise (f : FrameColsData) (n : Nat) : FrameColsData :=
  { columnMetadata := (List.range n).foldl
      (fun m j => m.updateMaxId (Int.ofNat j)) f.columnMetadata,
    ids := (List.range n).map Int.ofNat,
    dataColumns := [] }

/-- Modelled from the spec: `clear()` resets to the empty state. -/
def clear (_ : FrameColsData) : FrameColsData := empty

/-- The cell row at a row index, reading across all column arrays (the
transposed view of the column-priority storage). -/
def matrixRow (f : FrameColsData) (i : Nat) : List DatumVal :=
  f.dataColumns.map (fun col => col.getD i DatumVal.dflt)

end FrameColsData

/-! Printing.  Both data models' `print()` implementations are absent from
src/; the spec (section 6) fixes one textual form for both layouts. -/

/-- Modelled from the spec: rendering of one cell value for `print()`. -/
def printDatum : DatumVal → String
  | DatumVal.vInt8 v => toString v
  | DatumVal.vInt16 v => toString v
  | DatumVal.vInt32 v => toString v
  | DatumVal.vInt64 v => toString v
  | DatumVal.vFloat v => toString v.num ++ "/" ++ toString v.den
  | DatumVal.vDouble v => toString v.num ++ "/" ++ toString v.den
  | DatumVal.vString s => s

/-- Right-pad a rendered cell to a column width. -/
def padCell (w : Nat) (s : String) : String :=
  s ++ String.mk (List.replicate (w - s.length) ' ')

/-- Modelled from the spec: `print()` renders a whitespace-aligned textual
table - a header of column names and one line per data row led by the row
id; cells are right-padded to the column width derived from the declared
display width and the rendered contents, and the id column is sized from
the running `maxId` (section 6 and the `maxId` glossary entry). -/
def printTable (meta : ColumnMetadata) (ids : List Int) (cells : List (List DatumVal)) :
    String :=
  let rendered := cells.map (fun r => r.map printDatum)
  let widths := (List.range meta.columns.length).map (fun j =>
    max (meta.columns.getD j ColumnMetadatum.dflt).name.length
      ((rendered.map (fun r => (r.getD j "").length)).foldl max 0))
  let idWidth := (toString meta.maxId).length
  let header := String.intercalate " " (padCell idWidth "" ::
    (List.range meta.columns.length).map (fun j =>
      padCell (widths.getD j 0) (meta.columns.getD j ColumnMetadatum.dflt).name))
  let lines := (ids.zip rendered).map (fun p =>
    String.intercalate " " (padCell idWidth (toString p.1) ::
      (List.range meta.columns.length).map (fun j =>
        padCell (widths.getD j 0) (p.2.getD j ""))))
  String.intercalate "\n" (header :: lines)

/-- `FrameRowsData::print()`: the row-priority layout prints its rows
directly. -/
def FrameRowsData.print (f : FrameRowsData) : String :=
  printTable f.columnMetadata (f.dataRows.map DataRow.id) (f.dataRows.map DataRow.columns)

/-- `FrameColsData::print()`: the column-priority layout prints the
transposed cell matrix alongside its id vector. -/
def FrameColsData.print (f : FrameColsData) : String :=
  printTable f.columnMetadata f.ids ((List.range f.ids.length).map f.matrixRow)

/-! The variadic row append (FrameCols.h lines 122-162 and FrameRows.h
lines 137-177; the argument pack is modelled as a list of type-erased
values). -/

/-- Modelled from the spec: `Functions::addColumnToRow(data, row,
typeMatch, columnIndex, value)` (Functions.cpp is not in the source tree):
while the flag is still set, check the value's runtime type against the
schema at the current column index; on a match append the cell to the row
under construction and advance the index, on a mismatch clear the flag and
leave the index pointing at the offending column; do nothing once the flag
is cleared.  The fold state is (row, typeMatch, columnIndex). -/
def addColumnToRow (meta : ColumnMetadata) (st : DataRow × Bool × Nat) (value : DatumVal) :
    DataRow × Bool × Nat :=
  if st.2.1 then
    if value.type = meta.getType st.2.2 then
      (⟨st.1.id, st.1.columns ++ [value]⟩, true, st.2.2 + 1)
    else
      (st.1, false, st.2.2)
  else st

/-- `FrameRows::appendNewRow(T... args)` (FrameRows.h lines 137-177)
acting on the data model; the second component reports whether the row was
committed (and hence whether `notify()` ran). -/
def frameRowsAppendNewRow (f : FrameRowsData) (args : List DatumVal) :
    FrameRowsData × Bool :=
  if 0 < f.getSizeCols then
    if args.length = f.getSizeCols then
      if (List.range args.length).all
          (fun i => f.getPermission i == Permission.eReadWrite) then
        if (args.foldl (addColumnToRow f.columnMetadata)
            (⟨f.getMaxId + 1, []⟩, true, 0)).2.1 then
          (f.appendNewRow (args.foldl (addColumnToRow f.columnMetadata)
            (⟨f.getMaxId + 1, []⟩, true, 0)).1, true)
        else (f, false)
      else (f, false)
    else (f, false)
  else (f, false)

/-- `FrameCols::appendNewRow(T... args)` (FrameCols.h lines 122-162)
acting on the data model; the second component reports whether the row was
committed (and hence whether `notify()` ran). -/
def frameColsAppendNewRow (f : FrameColsData) (args : List DatumVal) :
    FrameColsData × Bool :=
  if 0 < f.getSizeCols then
    if args.length = f.getSizeCols then
      if (List.range args.length).all
          (fun i => f.getPermission i == Permission.eReadWrite) then
        if (args.foldl (addColumnToRow f.columnMetadata)
            (⟨f.getMaxId + 1, []⟩, true, 0)).2.1 then
          (f.appendNewRow (args.foldl (addColumnToRow f.columnMetadata)
            (⟨f.getMaxId + 1, []⟩, true, 0)).1, true)
        else (f, false)
      else (f, false)
    else (f, false)
  else (f, false)

/-! Sorting. -/

/-- The sorted index permutation of `FrameRows::reorderDataRows`
(FrameRows.h lines 186-196): positions 0..n-1 sorted by comparing the two
rows' cell at the target column. -/
def sortedRowIndices (func : DatumVal → DatumVal → Bool) (columnIndex : Nat)
    (rows : List DataRow) : List Nat :=
  stdSortModel
    (fun i j => func ((rows.getD i DataRow.dflt).getColumn columnIndex)
                     ((rows.getD j DataRow.dflt).getColumn columnIndex))
    (List.range rows.length)

/-- `FrameRows::reorderDataRows(columnIndex, func)` (FrameRows.h lines
184-205): the sorted index permutation applied in place by cycle-following
swaps. -/
def reorderDataRows (func : DatumVal → DatumVal → Bool) (columnIndex : Nat)
    (rows : List DataRow) : List DataRow :=
  applyCyclePerm DataRow.dflt (sortedRowIndices func columnIndex rows) rows

/-- The naive reorder: allocate a fully reordered copy in which position i
holds the row the sorted index list assigned to position i. -/
def reorderNaive (func : DatumVal → DatumVal → Bool) (columnIndex : Nat)
    (rows : List DataRow) : List DataRow :=
  (sortedRowIndices func columnIndex rows).map (fun j => rows.getD j DataRow.dflt)

/-- `FrameRows::sortRows(columnName, order)`.  The dispatch lives in the
missing FrameRows.cpp; modelled from the spec and the parallel
`ViewRows::sortRows` (ViewRows.cpp lines 91-109): check the column exists
(log and no-op otherwise), then reorder ascending with
`compareDatums(a, b)` or descending with the two arguments swapped. -/
def FrameRowsData.sortRows (f : FrameRowsData) (name : String) (order : SortOrder) :
    FrameRowsData :=
  if f.columnExists name then
    match f.getIndex name with
    | some index =>
      match order with
      | SortOrder.eAscending =>
        { f with dataRows := reorderDataRows (fun a b => compareDatums a b) index f.dataRows }
      | SortOrder.eDescending =>
        { f with dataRows := reorderDataRows (fun a b => compareDatums b a) index f.dataRows }
    | none => f
  else f

/-- `FrameRows::sortRows(columnName, func)` with a custom comparator
(FrameRows.h lines 117-118; dispatch modelled from the spec as for the
built-in orders). -/
def FrameRowsData.sortRowsFunc (f : FrameRowsData) (name : String)
    (func : DatumVal → DatumVal → Bool) : FrameRowsData :=
  if f.columnExists name then
    match f.getIndex name with
    | some index => { f with dataRows := reorderDataRows func index f.dataRows }
    | none => f
  else f

/-- Modelled from the spec: the column-priority sort (FunctionsCols.cpp is
not in the source tree; section 4.6 describes the shared design): build the
index permutation by comparing the target column's cells, sort it, and
apply it by cycle-following swaps to the id vector and to every column
array. -/
def FrameColsData.sortRows (f : FrameColsData) (name : String) (order : SortOrder) :
    FrameColsData :=
  if f.columnExists name then
    match f.getIndex name with
    | some index =>
      let col := f.getDataColumn index
      let cmp : DatumVal → DatumVal → Bool :=
        match order with
        | SortOrder.eAscending => fun a b => compareDatums a b
        | SortOrder.eDescending => fun a b => compareDatums b a
      let indices := stdSortModel
        (fun i j => cmp (col.getD i DatumVal.dflt) (col.getD j DatumVal.dflt))
        (List.range f.ids.length)
      { f with ids := applyCyclePerm 0 indices f.ids,
               dataColumns := f.dataColumns.map (fun c => applyCyclePerm DatumVal.dflt indices c) }
    | none => f
  else f

/-! Row-priority views.  A `ViewRows` owns a `ViewRowsData` - a copy of the
column metadata plus raw `DataRow*` pointers into the parent FrameRows'
row vector - and a back pointer to its parent.  The raw pointers are
modelled as indices into the parent's row vector. -/

/-- `ViewRowsData` (ViewRowsData.h): {columnMetadata (a copy), dataRows
(non-owning row pointers, modelled as indices into the parent's rows)}. -/
structure ViewRowsData where
  columnMetadata : ColumnMetadata
  rowRefs : List Nat
  deriving DecidableEq, Repr

namespace ViewRowsData

/-- Dereference one row pointer (`ViewRowsData::getDataRow`). -/
def rowAt (vd : ViewRowsData) (parent : FrameRowsData) (i : Nat) : DataRow :=
  parent.dataRows.getD (vd.rowRefs.getD i 0) DataRow.dflt

/-- The sequence of rows the view observes through its pointers. -/
def observedRows (vd : ViewRowsData) (parent : FrameRowsData) : List DataRow :=
  vd.rowRefs.map (fun i => parent.dataRows.getD i DataRow.dflt)

def getSizeRows (vd : ViewRowsData) : Nat := vd.rowRefs.length

def columnExists (vd : ViewRowsData) (name : String) : Bool :=
  vd.columnMetadata.columnExists name

def getIndex (vd : ViewRowsData) (name : String) : Option Nat :=
  vd.columnMetadata.getIndex name

def getType (vd : ViewRowsData) (i : Nat) : DataType := vd.columnMetadata.getType i

/-- `ViewRows::print()`: renders the observed rows under the view's own
metadata snapshot. -/
def print (vd : ViewRowsData) (parent : FrameRowsData) : String :=
  printTable vd.columnMetadata ((vd.observedRows parent).map DataRow.id)
    ((vd.observedRows parent).map DataRow.columns)

end ViewRowsData

/-- `ViewRows::getColumn<T>(name, values, type)` (ViewRows.cpp lines
155-177): unknown column or mismatched type tag log an error and leave the
caller's vector untouched; otherwise the vector is resized to the row
count and filled with the column's cells in row order.  The result is the
caller's vector after the call. -/
def viewRowsGetColumn (parent : FrameRowsData) (vd : ViewRowsData) (name : String)
    (values : List DatumVal) (type : DataType) : List DatumVal :=
  if vd.columnExists name then
    match vd.getIndex name with
    | some columnIndex =>
      if type = vd.getType columnIndex then
        (vd.observedRows parent).map (fun r => r.getColumn columnIndex)
      else values
    | none => values
  else values

/-- `ViewRows::sliceRows<T>(name, comparison, threshold)` (ViewRows.cpp
lines 179-206): on a known column, copy the row pointers whose cell at the
column satisfies the threshold comparison, with the copied metadata's
maxId reset and then updated with each kept row's id; on an unknown
column, log an error and build the result from a default-constructed
(empty) metadata and an empty pointer list.  The returned view registers
with the same parent (the constructor at ViewRows.cpp lines 17-21 calls
`parent_->attach(this)`). -/
def viewRowsSliceThreshold (parent : FrameRowsData) (vd : ViewRowsData) (name : String)
    (comparison : Comparison) (threshold : DatumVal) : ViewRowsData :=
  if vd.columnExists name then
    match vd.getIndex name with
    | some index =>
      let keep : Nat → Bool := fun i =>
        compareToThreshold comparison threshold
          ((parent.dataRows.getD i DataRow.dflt).getColumn index)
      { columnMetadata := (vd.rowRefs.filter keep).foldl
          (fun m i => m.updateMaxId (parent.dataRows.getD i DataRow.dflt).id)
          vd.columnMetadata.resetMaxId,
        rowRefs := vd.rowRefs.filter keep }
    | none => ⟨ColumnMetadata.empty, []⟩
  else ⟨ColumnMetadata.empty, []⟩

/-- `ViewRows::sliceRows(func)` (ViewRows.cpp lines 208-222): copy the row
pointers satisfying the row predicate; the copied metadata's maxId is
reset and then updated with the id of every scanned row (kept or not),
because the update precedes the predicate in the copy_if lambda.  The
returned view registers with the same parent. -/
def viewRowsSliceFunc (parent : FrameRowsData) (vd : ViewRowsData)
    (func : DataRow → Bool) : ViewRowsData :=
  { columnMetadata := vd.rowRefs.foldl
      (fun m i => m.updateMaxId (parent.dataRows.getD i DataRow.dflt).id)
      vd.columnMetadata.resetMaxId,
    rowRefs := vd.rowRefs.filter
      (fun i => func (parent.dataRows.getD i DataRow.dflt)) }

/-- The sorted index permutation of `ViewRows::reorderDataRows`
(ViewRows.h lines 90-100): positions 0..n-1 of the view's pointer list,
sorted by comparing the two referenced rows' cell at the target column. -/
def viewSortedIndices (parent : FrameRowsData) (vd : ViewRowsData)
    (func : DatumVal → DatumVal → Bool) (columnIndex : Nat) : List Nat :=
  stdSortModel
    (fun i j => func ((vd.rowAt parent i).getColumn columnIndex)
                     ((vd.rowAt parent j).getColumn columnIndex))
    (List.range vd.rowRefs.length)

/-- `ViewRows::reorderDataRows(columnIndex, func)` (ViewRows.h lines
88-112): the sorted index permutation applied to the view's own row
pointers by cycle-following swaps, without touching the backing frame. -/
def viewReorderRowRefs (parent : FrameRowsData) (vd : ViewRowsData)
    (func : DatumVal → DatumVal → Bool) (columnIndex : Nat) : List Nat :=
  applyCyclePerm 0 (viewSortedIndices parent vd func columnIndex) vd.rowRefs

/-- `ViewRows::sortRows(columnName, order)` (ViewRows.cpp lines 91-109): on
a known column, reorder ascending with `compareDatums(a, b)` or descending
with the two arguments swapped; unknown columns log and no-op. -/
def viewRowsSortRows (parent : FrameRowsData) (vd : ViewRowsData) (name : String)
    (order : SortOrder) : ViewRowsData :=
  if vd.columnExists name then
    match vd.getIndex name with
    | some index =>
      match order with
      | SortOrder.eAscending =>
        { vd with rowRefs := viewReorderRowRefs parent vd (fun a b => compareDatums a b) index }
      | SortOrder.eDescending =>
        { vd with rowRefs := viewReorderRowRefs parent vd (fun a b => compareDatums b a) index }
    | none => vd
  else vd

/-- `ViewRows::sortRows(columnName, func)` (ViewRows.cpp lines 111-141): as
the built-in orders but with a caller-supplied comparator over the two
cell handles (the loop body there is the same cycle-following apply). -/
def viewRowsSortRowsFunc (parent : FrameRowsData) (vd : ViewRowsData) (name : String)
    (func : DatumVal → DatumVal → Bool) : ViewRowsData :=
  if vd.columnExists name then
    match vd.getIndex name with
    | some index => { vd with rowRefs := viewReorderRowRefs parent vd func index }
    | none => vd
  else vd

/-! Frame-level checked operations.  FrameRows.cpp and FrameCols.cpp are
not in the source tree; each wrapper below is modelled from the spec
(sections 4.1 and 4.3-4.5, and the log-and-no-op failure policy of
sections 4.7 and 7), identically for the two layouts. -/

/-- Modelled from the spec: `configColumns` fails (logs, no-op) on a frame
that already has columns or when duplicate names are supplied (section
4.1); otherwise it installs the supplied schema. -/
def FrameRowsData.configColumns (f : FrameRowsData) (cols : List ColumnMetadatum) :
    FrameRowsData :=
  if 0 < f.getSizeCols then f
  else if (cols.map ColumnMetadatum.name).Nodup then
    { f with columnMetadata := { f.columnMetadata with columns := cols } }
  else f

/-- Modelled from the spec: the column-priority `configColumns`, with the
same checks as the row-priority one; one empty column array is
materialised per configured schema entry (the column-priority analogue of
configuring columns with no data yet). -/
def FrameColsData.configColumns (f : FrameColsData) (cols : List ColumnMetadatum) :
    FrameColsData :=
  if 0 < f.getSizeCols then f
  else if (cols.map ColumnMetadatum.name).Nodup then
    { f with columnMetadata := { f.columnMetadata with columns := cols },
             dataColumns := cols.map (fun _ => []) }
  else f

/-- Modelled from the spec: `FrameRows::appendNewColumn(name, values)`
(sections 4.4-4.5): fails on a duplicate name, or - when columns exist -
on a vector whose length differs from the row count; on an empty frame the
call defines the row count, materialising rows with ids 0..N-1; the schema
entry (read-write, display width from the name) is appended and every row
receives its value. -/
def frameRowsAppendNewColumn (f : FrameRowsData) (name : String) (t : DataType)
    (values : List DatumVal) : FrameRowsData :=
  if f.columnExists name then f
  else if 0 < f.getSizeCols ∧ values.length ≠ f.getSizeRows then f
  else
    let f1 := if f.getSizeCols = 0 then f.initialise values.length else f
    { columnMetadata := { f1.columnMetadata with
        columns := f1.columnMetadata.columns ++
          [⟨name, t, Permission.eReadWrite, Int.ofNat name.length⟩] },
      dataRows := List.zipWith (fun r v => ⟨r.id, r.columns ++ [v]⟩) f1.dataRows values }

/-- Modelled from the spec: `FrameCols::appendNewColumn(name, values)`
(section 4.3), with the same checks as the row-priority wrapper; the value
vector becomes the new column array. -/
def frameColsAppendNewColumn (f : FrameColsData) (name : String) (t : DataType)
    (values : List DatumVal) : FrameColsData :=
  if f.columnExists name then f
  else if 0 < f.getSizeCols ∧ values.length ≠ f.getSizeRows then f
  else
    let f1 := if f.getSizeCols = 0 then f.initialise values.length else f
    { columnMetadata := { f1.columnMetadata with
        columns := f1.columnMetadata.columns ++
          [⟨name, t, Permission.eReadWrite, Int.ofNat name.length⟩] },
      ids := f1.ids,
      dataColumns := f1.dataColumns ++ [values] }

/-- Modelled from the spec: `FrameRows::setColumn(name, values)` replaces
the data of an existing read-write column after checking name, type tag
and length (sections 4.5, 4.7 and the glossary's permission entry); it is
a const member overwriting cells through the shared handles, so no
`notify()` runs. -/
def frameRowsSetColumn (f : FrameRowsData) (name : String) (t : DataType)
    (values : List DatumVal) : FrameRowsData :=
  if f.columnExists name then
    match f.getIndex name with
    | some index =>
      if t = f.getType index ∧ values.length = f.getSizeRows ∧
          f.getPermission index = Permission.eReadWrite then
        { f with dataRows :=
            List.zipWith (fun r v => ⟨r.id, r.columns.set index v⟩) f.dataRows values }
      else f
    | none => f
  else f

/-- Modelled from the spec: `FrameCols::setColumn(name, values)`, with the
same checks as the row-priority wrapper; the column array is replaced in
place through the shared handle, so no `notify()` runs. -/
def frameColsSetColumn (f : FrameColsData) (name : String) (t : DataType)
    (values : List DatumVal) : FrameColsData :=
  if f.columnExists name then
    match f.getIndex name with
    | some index =>
      if t = f.getType index ∧ values.length = f.getSizeRows ∧
          f.getPermission index = Permission.eReadWrite then
        { f with dataColumns := f.dataColumns.set index values }
      else f
    | none => f
  else f

/-- Modelled from the spec: `FrameRows::removeRow(index)` erases the row at
a valid index and is a log-and-no-op otherwise (sections 4.4, 4.7). -/
def frameRowsRemoveRow (f : FrameRowsData) (i : Int) : FrameRowsData :=
  if 0 ≤ i ∧ i < Int.ofNat f.getSizeRows then f.removeRow i.toNat else f

/-- Modelled from the spec: `FrameCols::removeRow(index)`, as for the
row-priority wrapper. -/
def frameColsRemoveRow (f : FrameColsData) (i : Int) : FrameColsData :=
  if 0 ≤ i ∧ i < Int.ofNat f.getSizeRows then f.removeRow i.toNat else f

/-- Modelled from the spec: removing the last column returns the frame to
the Empty state (section 4.5's state machine: `removeColumn` down to zero
columns also returns to `Empty`). -/
def FrameRowsData.normEmpty (f : FrameRowsData) : FrameRowsData :=
  if f.getSizeCols = 0 then FrameRowsData.empty else f

/-- Modelled from the spec: the column-priority Empty-state normalisation,
as for the row-priority one. -/
def FrameColsData.normEmpty (f : FrameColsData) : FrameColsData :=
  if f.getSizeCols = 0 then FrameColsData.empty else f

/-- Modelled from the spec: `FrameRows::removeColumn(name)` resolves the
name (log-and-no-op when unknown) and erases the column. -/
def frameRowsRemoveColumnByName (f : FrameRowsData) (name : String) : FrameRowsData :=
  if f.columnExists name then
    match f.getIndex name with
    | some i => (f.removeColumn i).normEmpty
    | none => f
  else f

/-- Modelled from the spec: `FrameCols::removeColumn(name)`, as for the
row-priority wrapper. -/
def frameColsRemoveColumnByName (f : FrameColsData) (name : String) : FrameColsData :=
  if f.columnExists name then
    match f.getIndex name with
    | some i => (f.removeColumn i).normEmpty
    | none => f
  else f

/-- Modelled from the spec: `FrameRows::removeColumn(index)` with a bounds
check (log-and-no-op when invalid). -/
def frameRowsRemoveColumnByIndex (f : FrameRowsData) (i : Int) : FrameRowsData :=
  if 0 ≤ i ∧ i < Int.ofNat f.getSizeCols then (f.removeColumn i.toNat).normEmpty else f

/-- Modelled from the spec: `FrameCols::removeColumn(index)`, as for the
row-priority wrapper. -/
def frameColsRemoveColumnByIndex (f : FrameColsData) (i : Int) : FrameColsData :=
  if 0 ≤ i ∧ i < Int.ofNat f.getSizeCols then (f.removeColumn i.toNat).normEmpty else f

/-! The operation alphabet shared by the two layouts (the call shapes the
demo program odfViewTest.cpp exercises): configure, append row, append
column, set column, remove row, remove column (by name or index), sort,
clear. -/

inductive Op where
  | configColumns (cols : List ColumnMetadatum)
  | appendNewRow (args : List DatumVal)
  | appendNewColumn (name : String) (t : DataType) (values : List DatumVal)
  | setColumn (name : String) (t : DataType) (values : List DatumVal)
  | removeRow (i : Int)
  | removeColumnByName (name : String)
  | removeColumnByIndex (i : Int)
  | sortRows (name : String) (order : SortOrder)
  | clear
  deriving DecidableEq, Repr

/-- One operation applied to a row-priority frame. -/
def applyOpRows (f : FrameRowsData) : Op → FrameRowsData
  | Op.configColumns cols => f.configColumns cols
  | Op.appendNewRow args => (frameRowsAppendNewRow f args).1
  | Op.appendNewColumn name t values => frameRowsAppendNewColumn f name t values
  | Op.setColumn name t values => frameRowsSetColumn f name t values
  | Op.removeRow i => frameRowsRemoveRow f i
  | Op.removeColumnByName name => frameRowsRemoveColumnByName f name
  | Op.removeColumnByIndex i => frameRowsRemoveColumnByIndex f i
  | Op.sortRows name order => f.sortRows name order
  | Op.clear => f.clear

/-- One operation applied to a column-priority frame. -/
def applyOpCols (f : FrameColsData) : Op → FrameColsData
  | Op.configColumns cols => f.configColumns cols
  | Op.appendNewRow args => (frameColsAppendNewRow f args).1
  | Op.appendNewColumn name t values => frameColsAppendNewColumn f name t values
  | Op.setColumn name t values => frameColsSetColumn f name t values
  | Op.removeRow i => frameColsRemoveRow f i
  | Op.removeColumnByName name => frameColsRemoveColumnByName f name
  | Op.removeColumnByIndex i => frameColsRemoveColumnByIndex f i
  | Op.sortRows name order => f.sortRows name order
  | Op.clear => f.clear

def applyOpsRows (f : FrameRowsData) (ops : List Op) : FrameRowsData :=
  ops.foldl applyOpRows f

def applyOpsCols (f : FrameColsData) (ops : List Op) : FrameColsData :=
  ops.foldl applyOpCols f

/-! A frame together with its attached views (`FrameRows::views_` /
`FrameCols::views_` and the view objects reached through `notify()`). -/

structure WorldRows where
  frame : FrameRowsData
  views : List ViewRowsData
  deriving DecidableEq, Repr

namespace WorldRows

/-- The snapshot `makeView()` installs and `notify()` refreshes: the
frame's current column metadata plus one pointer per current data row
(`FrameRows::getViewDataRows`, FrameRows.h line 182). -/
def snapshot (f : FrameRowsData) : ViewRowsData :=
  ⟨f.columnMetadata, List.range f.dataRows.length⟩

/-- Modelled from the spec: `FrameRows::notify()` pushes the updated column
metadata and a fresh full row-pointer list to every attached view via
`ViewRows::setUpdatedObjects` (ViewRows.cpp lines 147-151). -/
def notify (w : WorldRows) : WorldRows :=
  { w with views := w.views.map (fun _ => snapshot w.frame) }

/-- `FrameRows::makeView()`: construct a view of all current rows and
attach it to the frame. -/
def makeView (w : WorldRows) : WorldRows :=
  { w with views := w.views ++ [snapshot w.frame] }

/-- `ViewRows::sliceRows<T>` at the world level: the new view registers
with the parent frame (`parent_->attach(this)` in the constructor), while
the source view and the frame data are untouched. -/
def sliceThreshold (w : WorldRows) (k : Nat) (name : String) (comparison : Comparison)
    (threshold : DatumVal) : WorldRows :=
  { w with views := w.views ++ [viewRowsSliceThreshold w.frame
      (w.views.getD k ⟨ColumnMetadata.empty, []⟩) name comparison threshold] }

/-- `ViewRows::sliceRows(func)` at the world level: as for the threshold
form, the new view registers with the parent frame. -/
def sliceFunc (w : WorldRows) (k : Nat) (func : DataRow → Bool) : WorldRows :=
  { w with views := w.views ++ [viewRowsSliceFunc w.frame
      (w.views.getD k ⟨ColumnMetadata.empty, []⟩) func] }

/-- One mutation applied at the world level: the frame mutates and - except
for the const `setColumn`, which writes through shared handles - every
attached view is notified; a failed `appendNewRow` commits nothing and
notifies nobody. -/
def applyOp (w : WorldRows) : Op → WorldRows
  | Op.setColumn name t values => { w with frame := frameRowsSetColumn w.frame name t values }
  | Op.appendNewRow args =>
    if (frameRowsAppendNewRow w.frame args).2 then
      (WorldRows.mk (frameRowsAppendNewRow w.frame args).1 w.views).notify
    else { w with frame := (frameRowsAppendNewRow w.frame args).1 }
  | op => ({ w with frame := applyOpRows w.frame op }).notify

def applyOps (w : WorldRows) (ops : List Op) : WorldRows :=
  ops.foldl applyOp w

/-- A view that is up to date with its frame: its metadata snapshot is the
frame's and it points at every row in order (the state `makeView` or the
last `notify()` leaves it in). -/
@[reducible] def ViewSynced (f : FrameRowsData) (vd : ViewRowsData) : Prop :=
  vd.columnMetadata = f.columnMetadata ∧ vd.rowRefs = List.range f.dataRows.length

end WorldRows

/-! The column-priority twin. -/

/-- `ViewColsData` (ViewColsData.h): {columnMetadata (a copy), ids (a
copy), dataColumns (copies of the shared column handles, modelled as
indices into the parent's column array list)}. -/
structure ViewColsData where
  columnMetadata : ColumnMetadata
  ids : List Int
  colRefs : List Nat
  deriving DecidableEq, Repr

namespace ViewColsData

/-- The column arrays the view observes through its shared handles. -/
def observedCols (vd : ViewColsData) (parent : FrameColsData) : List (List DatumVal) :=
  vd.colRefs.map (fun j => parent.dataColumns.getD j [])

/-- `ViewCols::print()`: renders the observed columns transposed under the
view's own metadata and id snapshots. -/
def print (vd : ViewColsData) (parent : FrameColsData) : String :=
  printTable vd.columnMetadata vd.ids
    ((List.range vd.ids.length).map (fun i =>
      (vd.observedCols parent).map (fun col => col.getD i DatumVal.dflt)))

end ViewColsData

structure WorldCols where
  frame : FrameColsData
  views : List ViewColsData
  deriving DecidableEq, Repr

namespace WorldCols

/-- The snapshot `makeView()` installs and `notify()` refreshes: the
frame's current column metadata, a copy of its id vector, and one shared
handle per column array. -/
def snapshot (f : FrameColsData) : ViewColsData :=
  ⟨f.columnMetadata, f.ids, List.range f.dataColumns.length⟩

/-- Modelled from the spec: `FrameCols::notify()` pushes the updated
metadata, ids and column handles to every attached view via
`ViewCols::setUpdatedObjects` (ViewCols.h lines 73-74). -/
def notify (w : WorldCols) : WorldCols :=
  { w with views := w.views.map (fun _ => snapshot w.frame) }

/-- `FrameCols::makeView()`. -/
def makeView (w : WorldCols) : WorldCols :=
  { w with views := w.views ++ [snapshot w.frame] }

/-- One mutation applied at the world level, as for the row-priority twin. -/
def applyOp (w : WorldCols) : Op → WorldCols
  | Op.setColumn name t values => { w with frame := frameColsSetColumn w.frame name t values }
  | Op.appendNewRow args =>
    if (frameColsAppendNewRow w.frame args).2 then
      (WorldCols.mk (frameColsAppendNewRow w.frame args).1 w.views).notify
    else { w with frame := (frameColsAppendNewRow w.frame args).1 }
  | op => ({ w with frame := applyOpCols w.frame op }).notify

def applyOps (w : WorldCols) (ops : List Op) : WorldCols :=
  ops.foldl applyOp w

/-- A view that is up to date with its frame. -/
@[reducible] def ViewSynced (f : FrameColsData) (vd : ViewColsData) : Prop :=
  vd.columnMetadata = f.columnMetadata ∧ vd.ids = f.ids ∧
  vd.colRefs = List.range f.dataColumns.length

end WorldCols

/-- The simulation relation between the two layouts: equal schema and
print metadata, the id vector is the rows' id column, the storage is
rectangular (one array per schema column, one cell per row and column), a
column-free frame holds no rows, and the cell at row i / column j agrees
pointwise (out-of-range reads of either layout give the default datum). -/
def EquivFrames (c : FrameColsData) (r : FrameRowsData) : Prop :=
  c.columnMetadata = r.columnMetadata ∧
  c.ids = r.dataRows.map DataRow.id ∧
  c.dataColumns.length = c.columnMetadata.columns.length ∧
  (∀ row ∈ r.dataRows, row.columns.length = c.columnMetadata.columns.length) ∧
  (∀ col ∈ c.dataColumns, col.length = r.dataRows.length) ∧
  (c.columnMetadata.columns.length = 0 → r.dataRows = []) ∧
  (∀ i j : Nat, (c.dataColumns.getD j []).getD i DatumVal.dflt =
    (r.dataRows.getD i DataRow.dflt).columns.getD j DatumVal.dflt)

/-! Concrete fixtures for the closed witnesses. -/

/-- A sequence element for the id-monotonicity property: one row append
(with its argument pack) or one row removal (by index). -/
inductive RowOp where
  | append (args : List DatumVal)
  | remove (i : Int)
  deriving DecidableEq, Repr

/-- Run a sequence of row appends/removals on a row-priority frame,
collecting in order the id assigned to each successfully appended row. -/
def runRowOps : List RowOp → FrameRowsData → FrameRowsData × List Int
  | [], f => (f, [])
  | RowOp.append args :: rest, f =>
    ((runRowOps rest (frameRowsAppendNewRow f args).1).1,
     (if (frameRowsAppendNewRow f args).2 then [f.getMaxId + 1] else []) ++
       (runRowOps rest (frameRowsAppendNewRow f args).1).2)
  | RowOp.remove i :: rest, f => runRowOps rest (frameRowsRemoveRow f i)

/-- A small two-column schema used by the concrete examples. -/
def exMeta : List ColumnMetadatum :=
  [⟨"lat", DataType.eInt32, Permission.eReadWrite, 3⟩,
   ⟨"tag", DataType.eInt64, Permission.eReadWrite, 3⟩]

/-- A small populated row-priority frame used by the concrete examples. -/
def exFrame : FrameRowsData :=
  (frameRowsAppendNewRow
    (frameRowsAppendNewRow
      (frameRowsAppendNewRow (FrameRowsData.empty.configColumns exMeta)
        [DatumVal.vInt32 5, DatumVal.vInt64 10]).1
      [DatumVal.vInt32 3, DatumVal.vInt64 20]).1
    [DatumVal.vInt32 9, DatumVal.vInt64 30]).1

/-- A full (unsliced) view of `exFrame`. -/
def exView : ViewRowsData := WorldRows.snapshot exFrame

/-- `exFrame` with `exView` attached. -/
def exWorld : WorldRows := ⟨exFrame, [exView]⟩

/-- The column-priority twin of `exFrame`. -/
def exFrameCols : FrameColsData :=
  (frameColsAppendNewRow
    (frameColsAppendNewRow
      (frameColsAppendNewRow (FrameColsData.empty.configColumns exMeta)
        [DatumVal.vInt32 5, DatumVal.vInt64 10]).1
      [DatumVal.vInt32 3, DatumVal.vInt64 20]).1
    [DatumVal.vInt32 9, DatumVal.vInt64 30]).1

/-- `exFrameCols` with one full view attached. -/
def exWorldCols : WorldCols := ⟨exFrameCols, [WorldCols.snapshot exFrameCols]⟩

theorem compareDatums_asymm (a b : DatumVal) :
    ¬(compareDatums a b = true ∧ compareDatums b a = true) := by
  rintro ⟨h1, h2⟩
  cases a <;> cases b <;>
    simp only [compareDatums, decide_eq_true_eq, Bool.false_eq_true] at h1 h2 <;>
    exact absurd (lt_trans h1 h2) (lt_irrefl _)

theorem compareDatums_total_of_type_eq {a b : DatumVal}
    (hty : a.type = b.type) (hne : a ≠ b) :
    compareDatums a b = true ∨ compareDatums b a = true := by
  cases a <;> cases b <;>
    simp only [DatumVal.type, compareDatums, decide_eq_true_eq, reduceCtorEq] at hty ⊢ <;>
    (refine lt_or_gt_of_ne ?_
     intro h
     exact hne (by rw [h]))

theorem compareDatums_trans {a b c : DatumVal}
    (hab : a.type = b.type) (hbc : b.type = c.type)
    (h1 : compareDatums a b = true) (h2 : compareDatums b c = true) :
    compareDatums a c = true := by
  cases a <;> cases b <;> cases c <;>
    simp only [DatumVal.type, compareDatums, decide_eq_true_eq, Bool.false_eq_true,
      reduceCtorEq] at hab hbc h1 h2 ⊢ <;>
    exact lt_trans h1 h2

/-! List access helpers mirroring `std::vector` element access (`.at`) with a
default for the (never exercised) out-of-range case, and `std::swap` of two
vector slots. -/

theorem getD_set_self {α : Type} (l : List α) (p : Nat) (x d : α) (hp : p < l.length) :
    (l.set p x).getD p d = x := by
  simp [List.getD_eq_getElem?_getD, List.getElem?_set_self hp]

theorem getD_set_other {α : Type} (l : List α) (p q : Nat) (x d : α) (h : p ≠ q) :
    (l.set p x).getD q d = l.getD q d := by
  simp [List.getD_eq_getElem?_getD, List.getElem?_set_ne h]

theorem getD_mem {α : Type} (l : List α) (p : Nat) (d : α) (hp : p < l.length) :
    l.getD p d ∈ l := by
  rw [List.getD_eq_getElem l d hp]
  exact List.getElem_mem hp

theorem length_listSwap {α : Type} (l : List α) (p q : Nat) (d : α) :
    (listSwap l p q d).length = l.length := by
  simp [listSwap]

theorem getD_listSwap_fst {α : Type} (l : List α) (p q : Nat) (d : α)
    (hp : p < l.length) (hpq : p ≠ q) :
    (listSwap l p q d).getD p d = l.getD q d := by
  rw [listSwap, getD_set_other _ q p _ _ (fun h => hpq h.symm), getD_set_self _ _ _ _ hp]

theorem getD_listSwap_snd {α : Type} (l : List α) (p q : Nat) (d : α)
    (hq : q < l.length) :
    (listSwap l p q d).getD q d = l.getD p d := by
  rw [listSwap, getD_set_self]
  simpa using hq

theorem getD_listSwap_other {α : Type} (l : List α) (p q r : Nat) (d : α)
    (hrp : r ≠ p) (hrq : r ≠ q) :
    (listSwap l p q d).getD r d = l.getD r d := by
  rw [listSwap, getD_set_other _ q r _ _ (fun h => hrq h.symm),
    getD_set_other _ p r _ _ (fun h => hrp h.symm)]

theorem mem_of_mem_listSwap {α : Type} {l : List α} {p q : Nat} {d : α} {x : α}
    (hp : p < l.length) (hq : q < l.length) (hx : x ∈ listSwap l p q d) : x ∈ l := by
  rcases List.mem_or_eq_of_mem_set hx with hx1 | hx1
  · rcases List.mem_or_eq_of_mem_set hx1 with hx2 | hx2
    · exact hx2
    · rw [hx2]; exact getD_mem l q d hq
  · rw [hx1]; exact getD_mem l p d hp

theorem sortInsert_perm {α : Type} (le : α → α → Bool) (x : α) (l : List α) :
    (sortInsert le x l).Perm (x :: l) := by
  induction l with
  | nil => exact List.Perm.refl _
  | cons y ys ih =>
    rw [sortInsert]
    by_cases h : le x y = true
    · rw [if_pos h]
    · rw [if_neg h]
      exact (ih.cons y).trans (List.Perm.swap x y ys)

theorem stdSortModel_perm {α : Type} (le : α → α → Bool) (l : List α) :
    (stdSortModel le l).Perm l := by
  induction l with
  | nil => exact List.Perm.refl _
  | cons x xs ih =>
    exact (sortInsert_perm le x (stdSortModel le xs)).trans (ih.cons x)

theorem mem_sortInsert {α : Type} (le : α → α → Bool) (x : α) (l : List α) (b : α) :
    b ∈ sortInsert le x l ↔ b = x ∨ b ∈ l := by
  rw [(sortInsert_perm le x l).mem_iff, List.mem_cons]

theorem pairwise_sortInsert {α : Type} (le : α → α → Bool) (x : α) (l : List α)
    (htot : ∀ b ∈ l, le x b = true ∨ le b x = true)
    (htr : ∀ y ∈ l, ∀ z ∈ l, le x y = true → le y z = true → le x z = true)
    (hP : l.Pairwise (fun a b => le a b = true)) :
    (sortInsert le x l).Pairwise (fun a b => le a b = true) := by
  induction l with
  | nil => simp [sortInsert]
  | cons y ys ih =>
    rw [sortInsert]
    rcases List.pairwise_cons.mp hP with ⟨hy, hys⟩
    by_cases hxy : le x y = true
    · rw [if_pos hxy]
      refine List.pairwise_cons.mpr ⟨?_, hP⟩
      intro b hb
      rcases List.mem_cons.mp hb with rfl | hb
      · exact hxy
      · exact htr y (List.mem_cons_self y ys) b (List.mem_cons_of_mem y hb) hxy (hy b hb)
    · rw [if_neg hxy]
      refine List.pairwise_cons.mpr ⟨?_, ?_⟩
      · intro b hb
        rcases (mem_sortInsert le x ys b).mp hb with rfl | hb
        · rcases htot y (List.mem_cons_self y ys) with h | h
          · exact absurd h hxy
          · exact h
        · exact hy b hb
      · refine ih ?_ ?_ hys
        · intro b hb
          exact htot b (List.mem_cons_of_mem y hb)
        · intro a ha b hb
          exact htr a (List.mem_cons_of_mem y ha) b (List.mem_cons_of_mem y hb)

theorem pairwise_stdSortModel {α : Type} (le : α → α → Bool) (l : List α)
    (hnd : l.Nodup)
    (htot : ∀ a ∈ l, ∀ b ∈ l, a ≠ b → le a b = true ∨ le b a = true)
    (htr : ∀ a ∈ l, ∀ b ∈ l, ∀ c ∈ l, le a b = true → le b c = true → le a c = true) :
    (stdSortModel le l).Pairwise (fun a b => le a b = true) := by
  induction l with
  | nil => simp [stdSortModel]
  | cons x xs ih =>
    rcases List.nodup_cons.mp hnd with ⟨hx, hxs⟩
    have hmem : ∀ b ∈ stdSortModel le xs, b ∈ xs := by
      intro b hb
      exact (stdSortModel_perm le xs).mem_iff.mp hb
    refine pairwise_sortInsert le x (stdSortModel le xs) ?_ ?_ ?_
    · intro b hb
      refine htot x (List.mem_cons_self x xs) b (List.mem_cons_of_mem x (hmem b hb)) ?_
      intro h
      exact hx (h ▸ hmem b hb)
    · intro y hy z hz
      exact htr x (List.mem_cons_self x xs) y (List.mem_cons_of_mem x (hmem y hy))
        z (List.mem_cons_of_mem x (hmem z hz))
    · refine ih hxs ?_ ?_
      · intro a ha b hb
        exact htot a (List.mem_cons_of_mem x ha) b (List.mem_cons_of_mem x hb)
      · intro a ha b hb c hc
        exact htr a (List.mem_cons_of_mem x ha) b (List.mem_cons_of_mem x hb)
          c (List.mem_cons_of_mem x hc)

theorem cycleBody_step {ρ : Type} {d : ρ} {v0 : List Nat} {a0 : List ρ}
    {v : List Nat} {a : List ρ} {i vi vvi : Nat}
    (hinv : CycleInv d v0 a0 v a) (hi : i < v.length)
    (hvi : vi = v.getD i 0) (hvvi : vvi = v.getD vi 0)
    (hcond : vi ≠ vvi) :
    CycleInv d v0 a0 (listSwap v i vi 0) (listSwap a vi vvi d) ∧
    cycleMeasure (listSwap v i vi 0) < cycleMeasure v ∧
    (∀ j, j < i → v.getD j 0 = j → (listSwap v i vi 0).getD j 0 = j) := by
  obtain ⟨hl1, hl2, hl3, hbound, hinj, htrack⟩ := hinv
  have hviLen : vi < v.length := by
    rw [hl3, hvi]
    exact hbound _ (getD_mem v i 0 hi)
  have hviA : vi < a.length := hl3 ▸ hviLen
  have hvviLen : vvi < v.length := by
    rw [hl3, hvvi]
    exact hbound _ (getD_mem v vi 0 hviLen)
  have hvviA : vvi < a.length := hl3 ▸ hvviLen
  have hivi : i ≠ vi := by
    intro h
    apply hcond
    rw [hvvi, ← h, ← hvi]
    exact h
  have gvI : (listSwap v i vi 0).getD i 0 = vvi := by
    rw [getD_listSwap_fst v i vi 0 hi hivi, hvvi]
  have gvVi : (listSwap v i vi 0).getD vi 0 = vi := by
    rw [getD_listSwap_snd v i vi 0 hviLen, hvi]
  have gvOther : ∀ r, r ≠ i → r ≠ vi → (listSwap v i vi 0).getD r 0 = v.getD r 0 := by
    intro r hr1 hr2
    exact getD_listSwap_other v i vi r 0 hr1 hr2
  have gaVi : (listSwap a vi vvi d).getD vi d = a.getD vvi d :=
    getD_listSwap_fst a vi vvi d hviA hcond
  have gaVvi : (listSwap a vi vvi d).getD vvi d = a.getD vi d :=
    getD_listSwap_snd a vi vvi d hvviA
  have gaOther : ∀ r, r ≠ vi → r ≠ vvi → (listSwap a vi vvi d).getD r d = a.getD r d := by
    intro r hr1 hr2
    exact getD_listSwap_other a vi vvi r d hr1 hr2
  have hlv : (listSwap v i vi 0).length = v.length := length_listSwap v i vi 0
  have hla : (listSwap a vi vvi d).length = a.length := length_listSwap a vi vvi d
  have hinjSwap : ∀ p q : Nat, p < v.length → q < v.length →
      (listSwap v i vi 0).getD p 0 = (listSwap v i vi 0).getD q 0 → p = q := by
    intro p q hp hq h
    by_cases hp1 : p = i
    · by_cases hq1 : q = i
      · rw [hp1, hq1]
      · by_cases hq2 : q = vi
        · rw [hp1, gvI, hq2, gvVi] at h
          exact absurd h.symm hcond
        · rw [hp1, gvI, gvOther q hq1 hq2] at h
          exact absurd (hinj vi q hviLen hq (hvvi.symm.trans h)).symm hq2
    · by_cases hp2 : p = vi
      · by_cases hq1 : q = i
        · rw [hp2, gvVi, hq1, gvI] at h
          exact absurd h hcond
        · by_cases hq2 : q = vi
          · rw [hp2, hq2]
          · rw [hp2, gvVi, gvOther q hq1 hq2] at h
            exact absurd (hinj i q hi hq (hvi.symm.trans h)).symm hq1
      · by_cases hq1 : q = i
        · rw [hq1, gvI, gvOther p hp1 hp2] at h
          exact absurd (hinj p vi hp hviLen (h.trans hvvi)) hp2
        · by_cases hq2 : q = vi
          · rw [hq2, gvVi, gvOther p hp1 hp2] at h
            exact absurd (hinj p i hp hi (h.trans hvi)) hp1
          · rw [gvOther p hp1 hp2, gvOther q hq1 hq2] at h
            exact hinj p q hp hq h
  refine ⟨⟨hlv.trans hl1, hla.trans hl2, by rw [hlv, hla]; exact hl3, ?_, ?_, ?_⟩, ?_, ?_⟩
  · intro x hx
    rw [hla]
    exact hbound x (mem_of_mem_listSwap hi hviLen hx)
  · intro p q hp hq h
    rw [hlv] at hp hq
    exact hinjSwap p q hp hq h
  · intro j hj
    rw [hlv] at hj
    by_cases hj1 : j = i
    · rw [hj1, gvI, gaVvi, hvi]
      exact htrack i hi
    · by_cases hj2 : j = vi
      · rw [hj2, gvVi, gaVi, hvvi]
        exact htrack vi hviLen
      · rw [gvOther j hj1 hj2]
        have hfj1 : v.getD j 0 ≠ vi := by
          intro h
          exact hj1 (hinj j i hj hi (h.trans hvi))
        have hfj2 : v.getD j 0 ≠ vvi := by
          intro h
          exact hj2 (hinj j vi hj hviLen (h.trans hvvi))
        rw [gaOther _ hfj1 hfj2]
        exact htrack j hj
  · rw [cycleMeasure, cycleMeasure, hlv]
    have hsub : (Finset.range v.length).filter (fun j => (listSwap v i vi 0).getD j 0 ≠ j) ⊆
        (Finset.range v.length).filter (fun j => v.getD j 0 ≠ j) := by
      intro j hj
      rw [Finset.mem_filter, Finset.mem_range] at hj ⊢
      obtain ⟨hjr, hjne⟩ := hj
      refine ⟨hjr, ?_⟩
      by_cases hj1 : j = i
      · rw [hj1, ← hvi]
        exact fun h => hivi h.symm
      · by_cases hj2 : j = vi
        · rw [hj2, gvVi] at hjne
          exact absurd rfl hjne
        · rw [gvOther j hj1 hj2] at hjne
          exact hjne
    refine Finset.card_lt_card ((Finset.ssubset_iff_of_subset hsub).mpr ⟨vi, ?_, ?_⟩)
    · rw [Finset.mem_filter, Finset.mem_range]
      refine ⟨hviLen, ?_⟩
      rw [← hvvi]
      exact fun h => hcond h.symm
    · rw [Finset.mem_filter]
      rintro ⟨-, hne⟩
      exact hne gvVi
  · intro j hji hjfix
    have hj1 : j ≠ i := Nat.ne_of_lt hji
    have hj2 : j ≠ vi := by
      intro h
      apply hcond
      rw [hvvi, ← h, hjfix, h]
    rw [gvOther j hj1 hj2, hjfix]

theorem cycleInner_spec {ρ : Type} (d : ρ) (v0 : List Nat) (a0 : List ρ) :
    ∀ (fuel : Nat) (v : List Nat) (a : List ρ) (i : Nat),
      i < v.length → cycleMeasure v ≤ fuel → CycleInv d v0 a0 v a →
      (∀ j, j < i → v.getD j 0 = j) →
      CycleInv d v0 a0 (cycleInner d i fuel v a).1 (cycleInner d i fuel v a).2 ∧
      (∀ j, j < i + 1 → (cycleInner d i fuel v a).1.getD j 0 = j) := by
  intro fuel
  induction fuel with
  | zero =>
    intro v a i hi hm hinv hpre
    have hfix : ∀ j, j < v.length → v.getD j 0 = j := by
      intro j hj
      by_contra hne
      have hmem : j ∈ (Finset.range v.length).filter (fun j => v.getD j 0 ≠ j) := by
        rw [Finset.mem_filter, Finset.mem_range]
        exact ⟨hj, hne⟩
      have : 0 < cycleMeasure v := Finset.card_pos.mpr ⟨j, hmem⟩
      omega
    rw [cycleInner]
    refine ⟨hinv, ?_⟩
    intro j hj
    exact hfix j (by omega)
  | succ fuel ih =>
    intro v a i hi hm hinv hpre
    rw [cycleInner]
    by_cases hcond : v.getD i 0 ≠ v.getD (v.getD i 0) 0
    · rw [if_pos hcond]
      obtain ⟨hinvs, hms, hpres⟩ := cycleBody_step hinv hi rfl rfl hcond
      have hlens : (listSwap v i (v.getD i 0) 0).length = v.length :=
        length_listSwap v i (v.getD i 0) 0
      refine ih (listSwap v i (v.getD i 0) 0)
        (listSwap a (v.getD i 0) (v.getD (v.getD i 0) 0) d) i ?_ ?_ hinvs ?_
      · rw [hlens]; exact hi
      · omega
      · intro j hj
        exact hpres j hj (hpre j hj)
    · rw [if_neg hcond]
      rw [not_not] at hcond
      obtain ⟨hl1, hl2, hl3, hbound, hinj, htrack⟩ := hinv
      have hviLen : v.getD i 0 < v.length := by
        rw [hl3]
        exact hbound _ (getD_mem v i 0 hi)
      have hfixI : v.getD i 0 = i := (hinj i (v.getD i 0) hi hviLen hcond).symm
      refine ⟨⟨hl1, hl2, hl3, hbound, hinj, htrack⟩, ?_⟩
      intro j hj
      by_cases hji : j = i
      · rw [hji]
        exact hfixI
      · exact hpre j (by omega)

theorem cycleOuter_spec {ρ : Type} (d : ρ) (v0 : List Nat) (a0 : List ρ) :
    ∀ (k i : Nat) (v : List Nat) (a : List ρ),
      i + k = v.length → CycleInv d v0 a0 v a →
      (∀ j, j < i → v.getD j 0 = j) →
      CycleInv d v0 a0 (cycleOuter d (List.range' i k) v a).1
        (cycleOuter d (List.range' i k) v a).2 ∧
      (∀ j, j < (cycleOuter d (List.range' i k) v a).1.length →
        (cycleOuter d (List.range' i k) v a).1.getD j 0 = j) := by
  intro k
  induction k with
  | zero =>
    intro i v a hik hinv hpre
    simp only [List.range', cycleOuter]
    refine ⟨hinv, ?_⟩
    intro j hj
    exact hpre j (by omega)
  | succ k ih =>
    intro i v a hik hinv hpre
    rw [List.range'_succ]
    rw [cycleOuter]
    have hi : i < v.length := by omega
    have hmea : cycleMeasure v ≤ v.length := by
      rw [cycleMeasure]
      calc ((Finset.range v.length).filter (fun j => v.getD j 0 ≠ j)).card
          ≤ (Finset.range v.length).card := Finset.card_filter_le _ _
        _ = v.length := Finset.card_range _
    obtain ⟨hinvs, hpres⟩ := cycleInner_spec d v0 a0 v.length v a i hi hmea hinv hpre
    have hlen : (cycleInner d i v.length v a).1.length = v.length := by
      obtain ⟨hs1, -, -, -, -, -⟩ := hinvs
      obtain ⟨hv1, -, -, -, -, -⟩ := hinv
      rw [hs1, ← hv1]
    exact ih (i + 1) (cycleInner d i v.length v a).1 (cycleInner d i v.length v a).2
      (by omega) hinvs (fun j hj => hpres j hj)

theorem applyCyclePerm_eq_map {ρ : Type} (d : ρ) (v : List Nat) (a : List ρ)
    (hlen : v.length = a.length) (hbound : ∀ x ∈ v, x < a.length) (hnd : v.Nodup) :
    applyCyclePerm d v a = v.map (fun j => a.getD j d) := by
  have hinj : ∀ p q : Nat, p < v.length → q < v.length → v.getD p 0 = v.getD q 0 → p = q := by
    intro p q hp hq h
    rw [List.getD_eq_getElem v 0 hp, List.getD_eq_getElem v 0 hq] at h
    exact (hnd.getElem_inj_iff).mp h
  have hinv : CycleInv d v a v a := ⟨rfl, rfl, hlen, hbound, hinj, fun j hj => rfl⟩
  obtain ⟨hinvf, hfix⟩ := cycleOuter_spec d v a a.length 0 v a (by omega) hinv
    (fun j hj => absurd hj (Nat.not_lt_zero j))
  obtain ⟨hfl1, hfl2, hfl3, hfbound, hfinj, hftrack⟩ := hinvf
  rw [applyCyclePerm, List.range_eq_range']
  refine List.ext_getElem ?_ ?_
  · rw [hfl2, List.length_map, hlen]
  · intro n h1 h2
    have hn : n < v.length := by
      rw [hfl2] at h1
      omega
    have hnf : (cycleOuter d (List.range' 0 a.length) v a).1.getD n 0 = n := by
      refine hfix n ?_
      rw [hfl1]
      exact hn
    have htr := hftrack n (by rw [hfl1]; exact hn)
    rw [hnf] at htr
    rw [← List.getD_eq_getElem _ d h1, htr, List.getElem_map]
    rw [List.getD_eq_getElem v 0 hn]

theorem sortedRowIndices_perm (func : DatumVal → DatumVal → Bool) (columnIndex : Nat)
    (rows : List DataRow) :
    (sortedRowIndices func columnIndex rows).Perm (List.range rows.length) :=
  stdSortModel_perm _ _

theorem reorderDataRows_eq_naive (func : DatumVal → DatumVal → Bool) (columnIndex : Nat)
    (rows : List DataRow) :
    reorderDataRows func columnIndex rows = reorderNaive func columnIndex rows := by
  have hperm := sortedRowIndices_perm func columnIndex rows
  refine applyCyclePerm_eq_map DataRow.dflt _ rows ?_ ?_ ?_
  · rw [hperm.length_eq, List.length_range]
  · intro x hx
    exact List.mem_range.mp (hperm.mem_iff.mp hx)
  · exact hperm.nodup_iff.mpr (List.nodup_range _)

theorem reorderDataRows_perm (func : DatumVal → DatumVal → Bool) (columnIndex : Nat)
    (rows : List DataRow) :
    (reorderDataRows func columnIndex rows).Perm rows := by
  rw [reorderDataRows_eq_naive, reorderNaive]
  have hperm := sortedRowIndices_perm func columnIndex rows
  have h2 : (List.range rows.length).map (fun j => rows.getD j DataRow.dflt) = rows := by
    refine List.ext_getElem (by simp) ?_
    intro n h1 h2
    rw [List.getElem_map]
    rw [List.getElem_range]
    exact List.getD_eq_getElem rows DataRow.dflt h2
  have hmap := hperm.map (fun j => rows.getD j DataRow.dflt)
  rw [h2] at hmap
  exact hmap

/-! General helper lemmas about the embedded operations. -/

theorem range_map_getD {α : Type} (l : List α) (d : α) :
    (List.range l.length).map (fun j => l.getD j d) = l := by
  refine List.ext_getElem (by simp) ?_
  intro n h1 h2
  rw [List.getElem_map, List.getElem_range]
  exact List.getD_eq_getElem l d h2

theorem applyCyclePerm_range_sort {ρ : Type} (d : ρ) (le : Nat → Nat → Bool) (a : List ρ) :
    applyCyclePerm d (stdSortModel le (List.range a.length)) a =
      (stdSortModel le (List.range a.length)).map (fun j => a.getD j d) := by
  have hperm := stdSortModel_perm le (List.range a.length)
  refine applyCyclePerm_eq_map d _ a ?_ ?_ ?_
  · rw [hperm.length_eq, List.length_range]
  · intro x hx
    exact List.mem_range.mp (hperm.mem_iff.mp hx)
  · exact hperm.nodup_iff.mpr (List.nodup_range _)

theorem applyCyclePerm_range_sort_perm {ρ : Type} (d : ρ) (le : Nat → Nat → Bool)
    (a : List ρ) :
    (applyCyclePerm d (stdSortModel le (List.range a.length)) a).Perm a := by
  rw [applyCyclePerm_range_sort]
  have hmap := (stdSortModel_perm le (List.range a.length)).map (fun j => a.getD j d)
  rw [range_map_getD] at hmap
  exact hmap

theorem columnExists_of_getIndex_some {m : ColumnMetadata} {name : String} {i : Nat}
    (h : m.getIndex name = some i) : m.columnExists name = true := by
  rw [ColumnMetadata.columnExists, ← List.findIdx?_isSome, ColumnMetadata.getIndex] at *
  rw [h]
  rfl

/-! C7 and C10: properties of the sorts. -/

/-- C7: for every container and every sort operation, the in-place
cycle-following application of the sorted index permutation (the loops of
FrameRows.h lines 197-204 and ViewRows.h lines 101-111) produces exactly
the same final row arrangement as the naive fully reordered copy: after
the apply loop, the entry at each position i is the entry the sorted index
list assigned to position i. -/
theorem c7_cycle_apply_eq_naive :
    (∀ (func : DatumVal → DatumVal → Bool) (columnIndex : Nat) (rows : List DataRow),
      reorderDataRows func columnIndex rows = reorderNaive func columnIndex rows) ∧
    (∀ (parent : FrameRowsData) (vd : ViewRowsData) (func : DatumVal → DatumVal → Bool)
        (columnIndex : Nat),
      viewReorderRowRefs parent vd func columnIndex =
        (viewSortedIndices parent vd func columnIndex).map (fun j => vd.rowRefs.getD j 0)) := by
  constructor
  · exact reorderDataRows_eq_naive
  · intro parent vd func columnIndex
    rw [viewReorderRowRefs, viewSortedIndices]
    exact applyCyclePerm_range_sort 0 _ vd.rowRefs

theorem sortRows_perm_meta (f : FrameRowsData) (name : String) (order : SortOrder) :
    (f.sortRows name order).dataRows.Perm f.dataRows ∧
    (f.sortRows name order).columnMetadata = f.columnMetadata := by
  rw [FrameRowsData.sortRows]
  split
  · split
    · split
      · exact ⟨reorderDataRows_perm _ _ _, rfl⟩
      · exact ⟨reorderDataRows_perm _ _ _, rfl⟩
    · exact ⟨List.Perm.refl _, rfl⟩
  · exact ⟨List.Perm.refl _, rfl⟩

theorem sortRowsFunc_perm_meta (f : FrameRowsData) (name : String)
    (func : DatumVal → DatumVal → Bool) :
    (f.sortRowsFunc name func).dataRows.Perm f.dataRows ∧
    (f.sortRowsFunc name func).columnMetadata = f.columnMetadata := by
  rw [FrameRowsData.sortRowsFunc]
  split
  · split
    · exact ⟨reorderDataRows_perm _ _ _, rfl⟩
    · exact ⟨List.Perm.refl _, rfl⟩
  · exact ⟨List.Perm.refl _, rfl⟩

/-- C10: `FrameRows::sortRows` (built-in order or custom comparator) only
permutes the stored DataRow objects: the multiset of rows (ids and cell
values), the column metadata, and the row count are unchanged. -/
theorem c10_sort_only_permutes (f : FrameRowsData) (name : String) (order : SortOrder)
    (func : DatumVal → DatumVal → Bool) :
    ((f.sortRows name order).dataRows.Perm f.dataRows ∧
      (f.sortRows name order).columnMetadata = f.columnMetadata ∧
      (f.sortRows name order).getSizeRows = f.getSizeRows) ∧
    ((f.sortRowsFunc name func).dataRows.Perm f.dataRows ∧
      (f.sortRowsFunc name func).columnMetadata = f.columnMetadata ∧
      (f.sortRowsFunc name func).getSizeRows = f.getSizeRows) := by
  obtain ⟨hp1, hm1⟩ := sortRows_perm_meta f name order
  obtain ⟨hp2, hm2⟩ := sortRowsFunc_perm_meta f name func
  exact ⟨⟨hp1, hm1, hp1.length_eq⟩, ⟨hp2, hm2, hp2.length_eq⟩⟩

/-! C8: the typed getColumn of the row-priority view (ViewRows.cpp lines
155-177). -/

/-- C8: `getColumn(name, values)` leaves the caller's vector unmodified
when the column is unknown or when the requested type tag differs from the
column's schema tag; otherwise it is resized to exactly the row count and
filled with the column's cells in row order. -/
theorem c8_getColumn_spec (parent : FrameRowsData) (vd : ViewRowsData)
    (name : String) (values : List DatumVal) (t : DataType) :
    (vd.columnExists name = false →
      viewRowsGetColumn parent vd name values t = values) ∧
    (∀ i, vd.getIndex name = some i → t ≠ vd.getType i →
      viewRowsGetColumn parent vd name values t = values) ∧
    (∀ i, vd.getIndex name = some i → t = vd.getType i →
      viewRowsGetColumn parent vd name values t =
        (vd.observedRows parent).map (fun r => r.getColumn i) ∧
      (viewRowsGetColumn parent vd name values t).length = vd.getSizeRows) := by
  refine ⟨?_, ?_, ?_⟩
  · intro h
    rw [viewRowsGetColumn, h]
    simp
  · intro i hi hne
    have hex : vd.columnExists name = true := columnExists_of_getIndex_some hi
    rw [viewRowsGetColumn, hex]
    simp only [if_true]
    rw [hi]
    simp [hne]
  · intro i hi hty
    have hex : vd.columnExists name = true := columnExists_of_getIndex_some hi
    have hres : viewRowsGetColumn parent vd name values t =
        (vd.observedRows parent).map (fun r => r.getColumn i) := by
      rw [viewRowsGetColumn, hex]
      simp only [if_true]
      rw [hi]
      simp [hty]
    refine ⟨hres, ?_⟩
    rw [hres, List.length_map, ViewRowsData.observedRows, List.length_map]
    rfl

/-! C9: slicing a row-priority view on an unknown column (ViewRows.cpp
lines 179-206 with the constructor of lines 17-21). -/

/-- C9: `sliceRows(name, op, threshold)` on a column absent from the view's
metadata does not no-op: it returns a fresh view with default (empty)
column metadata and zero rows, which nevertheless registers with the same
parent frame, while the frame and the source view are unchanged. -/
theorem c9_slice_unknown_column (w : WorldRows) (k : Nat) (name : String)
    (comparison : Comparison) (threshold : DatumVal)
    (h : (w.views.getD k ⟨ColumnMetadata.empty, []⟩).columnExists name = false) :
    (w.sliceThreshold k name comparison threshold).frame = w.frame ∧
    (w.sliceThreshold k name comparison threshold).views =
      w.views ++ [⟨ColumnMetadata.empty, []⟩] := by
  refine ⟨rfl, ?_⟩
  have hv : viewRowsSliceThreshold w.frame (w.views.getD k ⟨ColumnMetadata.empty, []⟩)
      name comparison threshold = ⟨ColumnMetadata.empty, []⟩ := by
    rw [viewRowsSliceThreshold, h]
    simp
  rw [WorldRows.sliceThreshold, hv]

/-! C6: properties of the view sorts. -/

theorem observed_getD (parent : FrameRowsData) (refs : List Nat) (j : Nat)
    (hj : j < refs.length) :
    (refs.map (fun r => parent.dataRows.getD r DataRow.dflt)).getD j DataRow.dflt =
      parent.dataRows.getD (refs.getD j 0) DataRow.dflt := by
  rw [List.getD_eq_getElem _ _ (by simpa using hj), List.getElem_map,
    List.getD_eq_getElem _ _ hj]

theorem rowAt_eq_observed_getD (parent : FrameRowsData) (vd : ViewRowsData) (j : Nat)
    (hj : j < vd.rowRefs.length) :
    vd.rowAt parent j = (vd.observedRows parent).getD j DataRow.dflt := by
  rw [ViewRowsData.rowAt, ViewRowsData.observedRows]
  exact (observed_getD parent _ j hj).symm

theorem viewRowsSortRows_asc_eq (parent : FrameRowsData) (vd : ViewRowsData)
    (name : String) (i : Nat) (hi : vd.getIndex name = some i) :
    viewRowsSortRows parent vd name SortOrder.eAscending =
      ViewRowsData.mk vd.columnMetadata
        (viewReorderRowRefs parent vd (fun a b => compareDatums a b) i) := by
  have hex : vd.columnExists name = true := columnExists_of_getIndex_some hi
  rw [viewRowsSortRows, hex]
  rw [if_pos rfl, hi]

theorem viewRowsSortRows_desc_eq (parent : FrameRowsData) (vd : ViewRowsData)
    (name : String) (i : Nat) (hi : vd.getIndex name = some i) :
    viewRowsSortRows parent vd name SortOrder.eDescending =
      ViewRowsData.mk vd.columnMetadata
        (viewReorderRowRefs parent vd (fun a b => compareDatums b a) i) := by
  have hex : vd.columnExists name = true := columnExists_of_getIndex_some hi
  rw [viewRowsSortRows, hex]
  rw [if_pos rfl, hi]

theorem viewReorder_observed (parent : FrameRowsData) (vd : ViewRowsData)
    (func : DatumVal → DatumVal → Bool) (i : Nat) :
    (ViewRowsData.mk vd.columnMetadata
        (viewReorderRowRefs parent vd func i)).observedRows parent =
      (viewSortedIndices parent vd func i).map
        (fun j => (vd.observedRows parent).getD j DataRow.dflt) := by
  rw [ViewRowsData.observedRows]
  show (viewReorderRowRefs parent vd func i).map
      (fun r => parent.dataRows.getD r DataRow.dflt) = _
  rw [viewReorderRowRefs, viewSortedIndices, applyCyclePerm_range_sort, List.map_map]
  refine List.map_congr_left ?_
  intro j hj
  have hj2 : j < vd.rowRefs.length := List.mem_range.mp
    ((stdSortModel_perm _ _).mem_iff.mp hj)
  show parent.dataRows.getD (vd.rowRefs.getD j 0) DataRow.dflt = _
  rw [ViewRowsData.observedRows]
  exact (observed_getD parent _ j hj2).symm

theorem viewReorder_observed_perm (parent : FrameRowsData) (vd : ViewRowsData)
    (func : DatumVal → DatumVal → Bool) (i : Nat) :
    ((ViewRowsData.mk vd.columnMetadata
        (viewReorderRowRefs parent vd func i)).observedRows parent).Perm
      (vd.observedRows parent) := by
  rw [viewReorder_observed]
  have hlen : (vd.observedRows parent).length = vd.rowRefs.length := by
    rw [ViewRowsData.observedRows, List.length_map]
  have hmap := (stdSortModel_perm
    (fun a b => func ((vd.rowAt parent a).getColumn i) ((vd.rowAt parent b).getColumn i))
    (List.range vd.rowRefs.length)).map
    (fun j => (vd.observedRows parent).getD j DataRow.dflt)
  rw [← hlen] at hmap
  rw [range_map_getD] at hmap
  rw [viewSortedIndices, ← hlen]
  exact hmap

theorem pairwise_sorted_observed (parent : FrameRowsData) (vd : ViewRowsData)
    (func : DatumVal → DatumVal → Bool) (i : Nat)
    (htot : ∀ a b : Nat, a < vd.rowRefs.length → b < vd.rowRefs.length → a ≠ b →
      func (((vd.observedRows parent).getD a DataRow.dflt).getColumn i)
        (((vd.observedRows parent).getD b DataRow.dflt).getColumn i) = true ∨
      func (((vd.observedRows parent).getD b DataRow.dflt).getColumn i)
        (((vd.observedRows parent).getD a DataRow.dflt).getColumn i) = true)
    (htr : ∀ a b c : Nat, a < vd.rowRefs.length → b < vd.rowRefs.length →
      c < vd.rowRefs.length →
      func (((vd.observedRows parent).getD a DataRow.dflt).getColumn i)
        (((vd.observedRows parent).getD b DataRow.dflt).getColumn i) = true →
      func (((vd.observedRows parent).getD b DataRow.dflt).getColumn i)
        (((vd.observedRows parent).getD c DataRow.dflt).getColumn i) = true →
      func (((vd.observedRows parent).getD a DataRow.dflt).getColumn i)
        (((vd.observedRows parent).getD c DataRow.dflt).getColumn i) = true) :
    List.Pairwise (fun r s => func (r.getColumn i) (s.getColumn i) = true)
      ((viewSortedIndices parent vd func i).map
        (fun j => (vd.observedRows parent).getD j DataRow.dflt)) := by
  have hP := pairwise_stdSortModel
    (fun a b => func ((vd.rowAt parent a).getColumn i) ((vd.rowAt parent b).getColumn i))
    (List.range vd.rowRefs.length) (List.nodup_range _) ?_ ?_
  · have hP2 : List.Pairwise (fun a b =>
        func (((vd.observedRows parent).getD a DataRow.dflt).getColumn i)
          (((vd.observedRows parent).getD b DataRow.dflt).getColumn i) = true)
        (viewSortedIndices parent vd func i) := by
      refine List.Pairwise.imp_of_mem ?_ hP
      intro a b ha hb hab
      have ha2 : a < vd.rowRefs.length := List.mem_range.mp
        ((stdSortModel_perm _ _).mem_iff.mp ha)
      have hb2 : b < vd.rowRefs.length := List.mem_range.mp
        ((stdSortModel_perm _ _).mem_iff.mp hb)
      have hab2 : func ((vd.rowAt parent a).getColumn i)
          ((vd.rowAt parent b).getColumn i) = true := hab
      rw [rowAt_eq_observed_getD parent vd a ha2,
        rowAt_eq_observed_getD parent vd b hb2] at hab2
      exact hab2
    exact hP2.map _ (fun a b h => h)
  · intro a ha b hb hne
    have ha2 := List.mem_range.mp ha
    have hb2 := List.mem_range.mp hb
    show func ((vd.rowAt parent a).getColumn i) ((vd.rowAt parent b).getColumn i) = true ∨
      func ((vd.rowAt parent b).getColumn i) ((vd.rowAt parent a).getColumn i) = true
    rw [rowAt_eq_observed_getD parent vd a ha2, rowAt_eq_observed_getD parent vd b hb2]
    exact htot a b ha2 hb2 hne
  · intro a ha b hb c hc h1 h2
    have ha2 := List.mem_range.mp ha
    have hb2 := List.mem_range.mp hb
    have hc2 := List.mem_range.mp hc
    have h1b : func ((vd.rowAt parent a).getColumn i)
        ((vd.rowAt parent b).getColumn i) = true := h1
    have h2b : func ((vd.rowAt parent b).getColumn i)
        ((vd.rowAt parent c).getColumn i) = true := h2
    rw [rowAt_eq_observed_getD parent vd a ha2, rowAt_eq_observed_getD parent vd b hb2] at h1b
    rw [rowAt_eq_observed_getD parent vd b hb2, rowAt_eq_observed_getD parent vd c hc2] at h2b
    show func ((vd.rowAt parent a).getColumn i) ((vd.rowAt parent c).getColumn i) = true
    rw [rowAt_eq_observed_getD parent vd a ha2, rowAt_eq_observed_getD parent vd c hc2]
    exact htr a b c ha2 hb2 hc2 h1b h2b

theorem keys_total_trans (parent : FrameRowsData) (vd : ViewRowsData) (i : Nat)
    (hty : ∀ r ∈ vd.observedRows parent, ∀ s ∈ vd.observedRows parent,
      (r.getColumn i).type = (s.getColumn i).type)
    (hnd : ((vd.observedRows parent).map (fun r => r.getColumn i)).Nodup) :
    (∀ a b : Nat, a < vd.rowRefs.length → b < vd.rowRefs.length → a ≠ b →
      compareDatums (((vd.observedRows parent).getD a DataRow.dflt).getColumn i)
        (((vd.observedRows parent).getD b DataRow.dflt).getColumn i) = true ∨
      compareDatums (((vd.observedRows parent).getD b DataRow.dflt).getColumn i)
        (((vd.observedRows parent).getD a DataRow.dflt).getColumn i) = true) ∧
    (∀ a b c : Nat, a < vd.rowRefs.length → b < vd.rowRefs.length →
      c < vd.rowRefs.length →
      compareDatums (((vd.observedRows parent).getD a DataRow.dflt).getColumn i)
        (((vd.observedRows parent).getD b DataRow.dflt).getColumn i) = true →
      compareDatums (((vd.observedRows parent).getD b DataRow.dflt).getColumn i)
        (((vd.observedRows parent).getD c DataRow.dflt).getColumn i) = true →
      compareDatums (((vd.observedRows parent).getD a DataRow.dflt).getColumn i)
        (((vd.observedRows parent).getD c DataRow.dflt).getColumn i) = true) := by
  have hlen : (vd.observedRows parent).length = vd.rowRefs.length := by
    rw [ViewRowsData.observedRows, List.length_map]
  constructor
  · intro a b ha hb hne
    rw [← hlen] at ha hb
    rw [List.getD_eq_getElem _ _ ha, List.getD_eq_getElem _ _ hb]
    refine compareDatums_total_of_type_eq ?_ ?_
    · exact hty _ (List.getElem_mem ha) _ (List.getElem_mem hb)
    · intro heq
      have haM : a < ((vd.observedRows parent).map (fun r => r.getColumn i)).length := by
        simpa using ha
      have hbM : b < ((vd.observedRows parent).map (fun r => r.getColumn i)).length := by
        simpa using hb
      have hMa : ((vd.observedRows parent).map (fun r => r.getColumn i))[a] =
          ((vd.observedRows parent).map (fun r => r.getColumn i))[b] := by
        rw [List.getElem_map, List.getElem_map]
        exact heq
      exact hne ((hnd.getElem_inj_iff).mp hMa)
  · intro a b c ha hb hc h1 h2
    rw [← hlen] at ha hb hc
    rw [List.getD_eq_getElem _ _ ha, List.getD_eq_getElem _ _ hb] at h1
    rw [List.getD_eq_getElem _ _ hb, List.getD_eq_getElem _ _ hc] at h2
    rw [List.getD_eq_getElem _ _ ha, List.getD_eq_getElem _ _ hc]
    refine compareDatums_trans ?_ ?_ h1 h2
    · exact hty _ (List.getElem_mem ha) _ (List.getElem_mem hb)
    · exact hty _ (List.getElem_mem hb) _ (List.getElem_mem hc)

/-- C6: on a column whose observed values are pairwise distinct (and share
the column's runtime type), sorting the view ascending and then descending
yields exactly the reverse row order of the ascending result (descending
swaps the two comparator arguments rather than negating the predicate);
and sorting with a user-supplied predicate extensionally equal to the
built-in ascending comparison produces the same view as the built-in
ascending sort. -/
theorem c6_sort_asc_desc (parent : FrameRowsData) (vd : ViewRowsData) (name : String)
    (i : Nat) (hi : vd.getIndex name = some i)
    (hty : ∀ r ∈ vd.observedRows parent, ∀ s ∈ vd.observedRows parent,
      (r.getColumn i).type = (s.getColumn i).type)
    (hnd : ((vd.observedRows parent).map (fun r => r.getColumn i)).Nodup) :
    (viewRowsSortRows parent (viewRowsSortRows parent vd name SortOrder.eAscending) name
        SortOrder.eDescending).observedRows parent =
      ((viewRowsSortRows parent vd name SortOrder.eAscending).observedRows parent).reverse ∧
    (∀ func : DatumVal → DatumVal → Bool, (∀ a b, func a b = compareDatums a b) →
      viewRowsSortRowsFunc parent vd name func =
        viewRowsSortRows parent vd name SortOrder.eAscending) := by
  constructor
  · rw [viewRowsSortRows_asc_eq parent vd name i hi]
    set vd1 : ViewRowsData := ViewRowsData.mk vd.columnMetadata
      (viewReorderRowRefs parent vd (fun a b => compareDatums a b) i) with hvd1
    have hi1 : vd1.getIndex name = some i := hi
    rw [viewRowsSortRows_desc_eq parent vd1 name i hi1]
    have hk := keys_total_trans parent vd i hty hnd
    have hperm1 : (vd1.observedRows parent).Perm (vd.observedRows parent) := by
      rw [hvd1]
      exact viewReorder_observed_perm parent vd _ i
    have hS1 : List.Pairwise
        (fun r s => compareDatums (r.getColumn i) (s.getColumn i) = true)
        (vd1.observedRows parent) := by
      rw [hvd1, viewReorder_observed]
      exact pairwise_sorted_observed parent vd (fun a b => compareDatums a b) i hk.1 hk.2
    have hty1 : ∀ r ∈ vd1.observedRows parent, ∀ s ∈ vd1.observedRows parent,
        (r.getColumn i).type = (s.getColumn i).type := by
      intro r hr s hs
      exact hty r (hperm1.mem_iff.mp hr) s (hperm1.mem_iff.mp hs)
    have hnd1 : ((vd1.observedRows parent).map (fun r => r.getColumn i)).Nodup :=
      ((hperm1.map (fun r => r.getColumn i)).nodup_iff).mpr hnd
    have hk1 := keys_total_trans parent vd1 i hty1 hnd1
    have htot2 : ∀ a b : Nat, a < vd1.rowRefs.length → b < vd1.rowRefs.length → a ≠ b →
        compareDatums (((vd1.observedRows parent).getD b DataRow.dflt).getColumn i)
          (((vd1.observedRows parent).getD a DataRow.dflt).getColumn i) = true ∨
        compareDatums (((vd1.observedRows parent).getD a DataRow.dflt).getColumn i)
          (((vd1.observedRows parent).getD b DataRow.dflt).getColumn i) = true := by
      intro a b ha hb hne
      exact (hk1.1 a b ha hb hne).symm
    have htr2 : ∀ a b c : Nat, a < vd1.rowRefs.length → b < vd1.rowRefs.length →
        c < vd1.rowRefs.length →
        compareDatums (((vd1.observedRows parent).getD b DataRow.dflt).getColumn i)
          (((vd1.observedRows parent).getD a DataRow.dflt).getColumn i) = true →
        compareDatums (((vd1.observedRows parent).getD c DataRow.dflt).getColumn i)
          (((vd1.observedRows parent).getD b DataRow.dflt).getColumn i) = true →
        compareDatums (((vd1.observedRows parent).getD c DataRow.dflt).getColumn i)
          (((vd1.observedRows parent).getD a DataRow.dflt).getColumn i) = true := by
      intro a b c ha hb hc h1 h2
      exact hk1.2 c b a hc hb ha h2 h1
    have hperm2 : ((ViewRowsData.mk vd1.columnMetadata
        (viewReorderRowRefs parent vd1 (fun a b => compareDatums b a) i)).observedRows
        parent).Perm (vd1.observedRows parent) :=
      viewReorder_observed_perm parent vd1 _ i
    have hS2 : List.Pairwise
        (fun r s => compareDatums (s.getColumn i) (r.getColumn i) = true)
        ((ViewRowsData.mk vd1.columnMetadata
          (viewReorderRowRefs parent vd1 (fun a b => compareDatums b a) i)).observedRows
          parent) := by
      rw [viewReorder_observed]
      have hS2a := pairwise_sorted_observed parent vd1 (fun a b => compareDatums b a) i
        htot2 htr2
      exact hS2a.imp (fun h => h)
    have hrev : List.Pairwise
        (fun r s => compareDatums (s.getColumn i) (r.getColumn i) = true)
        ((vd1.observedRows parent).reverse) := by
      rw [List.pairwise_reverse]
      exact hS1
    refine List.Perm.eq_of_sorted ?_ hS2 hrev
      (hperm2.trans (List.reverse_perm _).symm)
    intro a b ha hb h1 h2
    exact ((compareDatums_asymm (a.getColumn i) (b.getColumn i)) ⟨h2, h1⟩).elim
  · intro func hfunc
    have hfe : func = fun a b => compareDatums a b := by
      funext a b
      exact hfunc a b
    rw [hfe]
    rfl

/-- C6 witness: the sort reversal and comparator-equivalence facts hold for
the concrete lat column of the example frame, whose three values are
pairwise distinct. -/
theorem c6_sort_asc_desc_witness :
    exView.getIndex "lat" = some 0 ∧
    (∀ r ∈ exView.observedRows exFrame, ∀ s ∈ exView.observedRows exFrame,
      (r.getColumn 0).type = (s.getColumn 0).type) ∧
    (((exView.observedRows exFrame).map (fun r => r.getColumn 0)).Nodup ∧
    ((viewRowsSortRows exFrame (viewRowsSortRows exFrame exView "lat" SortOrder.eAscending)
        "lat" SortOrder.eDescending).observedRows exFrame =
      ((viewRowsSortRows exFrame exView "lat" SortOrder.eAscending).observedRows
        exFrame).reverse ∧
    (∀ func : DatumVal → DatumVal → Bool, (∀ a b, func a b = compareDatums a b) →
      viewRowsSortRowsFunc exFrame exView "lat" func =
        viewRowsSortRows exFrame exView "lat" SortOrder.eAscending))) :=
  ⟨by decide, by decide, by decide,
    c6_sort_asc_desc exFrame exView "lat" 0 (by decide) (by decide) (by decide)⟩

/-! C4: slice correctness. -/

theorem foldl_updateMaxId_spec (g : Nat → Int) (l : List Nat) : ∀ (m : ColumnMetadata),
    (l.foldl (fun m2 i => m2.updateMaxId (g i)) m).maxId = (l.map g).foldl max m.maxId ∧
    (l.foldl (fun m2 i => m2.updateMaxId (g i)) m).columns = m.columns := by
  induction l with
  | nil => intro m; exact ⟨rfl, rfl⟩
  | cons x xs ih =>
    intro m
    rw [List.foldl_cons, List.map_cons, List.foldl_cons]
    have hih := ih (m.updateMaxId (g x))
    exact ⟨hih.1, hih.2⟩

theorem viewRowsSliceThreshold_spec (parent : FrameRowsData) (vd : ViewRowsData)
    (name : String) (comparison : Comparison) (threshold : DatumVal) (i : Nat)
    (hi : vd.getIndex name = some i) :
    (viewRowsSliceThreshold parent vd name comparison threshold).rowRefs =
      vd.rowRefs.filter (fun r => compareToThreshold comparison threshold
        ((parent.dataRows.getD r DataRow.dflt).getColumn i)) ∧
    (viewRowsSliceThreshold parent vd name comparison threshold).columnMetadata.columns =
      vd.columnMetadata.columns ∧
    (viewRowsSliceThreshold parent vd name comparison threshold).columnMetadata.maxId =
      ((vd.rowRefs.filter (fun r => compareToThreshold comparison threshold
          ((parent.dataRows.getD r DataRow.dflt).getColumn i))).map
        (fun r => (parent.dataRows.getD r DataRow.dflt).id)).foldl max 0 := by
  have hex : vd.columnExists name = true := columnExists_of_getIndex_some hi
  rw [viewRowsSliceThreshold, hex]
  rw [if_pos rfl]
  rw [hi]
  have hfold := foldl_updateMaxId_spec
    (fun r => (parent.dataRows.getD r DataRow.dflt).id)
    (vd.rowRefs.filter (fun r => compareToThreshold comparison threshold
      ((parent.dataRows.getD r DataRow.dflt).getColumn i)))
    vd.columnMetadata.resetMaxId
  exact ⟨rfl, hfold.2, hfold.1⟩

theorem viewRowsSliceFunc_spec (parent : FrameRowsData) (vd : ViewRowsData)
    (func : DataRow → Bool) :
    (viewRowsSliceFunc parent vd func).rowRefs =
      vd.rowRefs.filter (fun r => func (parent.dataRows.getD r DataRow.dflt)) ∧
    (viewRowsSliceFunc parent vd func).columnMetadata.columns =
      vd.columnMetadata.columns ∧
    (viewRowsSliceFunc parent vd func).columnMetadata.maxId =
      (vd.rowRefs.map (fun r => (parent.dataRows.getD r DataRow.dflt).id)).foldl max 0 := by
  rw [viewRowsSliceFunc]
  have hfold := foldl_updateMaxId_spec
    (fun r => (parent.dataRows.getD r DataRow.dflt).id) vd.rowRefs
    vd.columnMetadata.resetMaxId
  exact ⟨rfl, hfold.2, hfold.1⟩

theorem observedRows_filter (parent : FrameRowsData) (refs : List Nat)
    (p : DataRow → Bool) :
    (refs.filter (fun r => p (parent.dataRows.getD r DataRow.dflt))).map
      (fun r => parent.dataRows.getD r DataRow.dflt) =
    (refs.map (fun r => parent.dataRows.getD r DataRow.dflt)).filter p := by
  rw [List.filter_map]
  rfl

/-- C4 counterexample: slicing the example view with the custom row
predicate keeping only the id-1 row keeps exactly that row, yet the
resulting view's maxId is 3 - the id of the largest scanned row - not the
kept-rows maximum 1, so the maxId print-alignment metadata of the
predicate form is not recomputed over only the kept rows. -/
theorem c4_counterexample :
    ((viewRowsSliceFunc exFrame exView (fun r => r.id == 1)).observedRows exFrame).map
      DataRow.id = [1] ∧
    (viewRowsSliceFunc exFrame exView (fun r => r.id == 1)).columnMetadata.maxId = 3 ∧
    ¬((viewRowsSliceFunc exFrame exView (fun r => r.id == 1)).columnMetadata.maxId =
      ((((viewRowsSliceFunc exFrame exView (fun r => r.id == 1)).observedRows
        exFrame).map DataRow.id).foldl max 0)) := by
  refine ⟨by decide, by decide, by decide⟩

/-- C4 (amended): for a slice over an existing column, the threshold form
keeps exactly the rows whose cell satisfies the comparison, in source
order, and recomputes the result's maxId (resetMaxId then updateMaxId)
over only the kept rows; the custom row-predicate form keeps exactly the
rows satisfying the predicate, in source order, but updates the maxId with
every scanned row's id (the update precedes the predicate in the copy_if
lambda), so its maxId is the maximum over all scanned rows; slicing never
changes the parent frame's print() output, and the new view is attached to
the parent. -/
theorem c4_slice_rows_amended (w : WorldRows) (k : Nat) (name : String)
    (comparison : Comparison) (threshold : DatumVal) (func : DataRow → Bool) (i : Nat)
    (hi : (w.views.getD k ⟨ColumnMetadata.empty, []⟩).getIndex name = some i) :
    ((viewRowsSliceThreshold w.frame (w.views.getD k ⟨ColumnMetadata.empty, []⟩) name
        comparison threshold).observedRows w.frame =
      ((w.views.getD k ⟨ColumnMetadata.empty, []⟩).observedRows w.frame).filter
        (fun row => compareToThreshold comparison threshold (row.getColumn i))) ∧
    ((viewRowsSliceThreshold w.frame (w.views.getD k ⟨ColumnMetadata.empty, []⟩) name
        comparison threshold).columnMetadata.maxId =
      (((viewRowsSliceThreshold w.frame (w.views.getD k ⟨ColumnMetadata.empty, []⟩) name
        comparison threshold).observedRows w.frame).map DataRow.id).foldl max 0) ∧
    ((viewRowsSliceFunc w.frame (w.views.getD k ⟨ColumnMetadata.empty, []⟩)
        func).observedRows w.frame =
      ((w.views.getD k ⟨ColumnMetadata.empty, []⟩).observedRows w.frame).filter func) ∧
    ((viewRowsSliceFunc w.frame (w.views.getD k ⟨ColumnMetadata.empty, []⟩)
        func).columnMetadata.maxId =
      (((w.views.getD k ⟨ColumnMetadata.empty, []⟩).observedRows w.frame).map
        DataRow.id).foldl max 0) ∧
    (w.sliceThreshold k name comparison threshold).frame.print = w.frame.print ∧
    (w.sliceFunc k func).frame.print = w.frame.print ∧
    (w.sliceThreshold k name comparison threshold).views =
      w.views ++ [viewRowsSliceThreshold w.frame
        (w.views.getD k ⟨ColumnMetadata.empty, []⟩) name comparison threshold] := by
  have hth := viewRowsSliceThreshold_spec w.frame
    (w.views.getD k ⟨ColumnMetadata.empty, []⟩) name comparison threshold i hi
  have hfn := viewRowsSliceFunc_spec w.frame
    (w.views.getD k ⟨ColumnMetadata.empty, []⟩) func
  refine ⟨?_, ?_, ?_, ?_, rfl, rfl, rfl⟩
  · rw [ViewRowsData.observedRows, hth.1, ViewRowsData.observedRows]
    exact observedRows_filter w.frame _
      (fun row => compareToThreshold comparison threshold (row.getColumn i))
  · rw [hth.2.2, ViewRowsData.observedRows, hth.1, List.map_map]
    rfl
  · rw [ViewRowsData.observedRows, hfn.1, ViewRowsData.observedRows]
    exact observedRows_filter w.frame _ func
  · rw [hfn.2.2, ViewRowsData.observedRows, List.map_map]
    rfl

theorem c4_slice_rows_amended_witness :
    (viewRowsSliceThreshold exFrame exView "lat" Comparison.eLessThan
        (DatumVal.vInt32 6)).observedRows exFrame =
      (exView.observedRows exFrame).filter
        (fun row => compareToThreshold Comparison.eLessThan (DatumVal.vInt32 6)
          (row.getColumn 0)) ∧
    (viewRowsSliceThreshold exFrame exView "lat" Comparison.eLessThan
        (DatumVal.vInt32 6)).columnMetadata.maxId =
      (((viewRowsSliceThreshold exFrame exView "lat" Comparison.eLessThan
        (DatumVal.vInt32 6)).observedRows exFrame).map DataRow.id).foldl max 0 := by
  have hmain := c4_slice_rows_amended exWorld 0 "lat" Comparison.eLessThan
    (DatumVal.vInt32 6) (fun r => r.id == 1) 0 (by decide)
  exact ⟨hmain.1, hmain.2.1⟩

theorem c8_getColumn_spec_witness :
    viewRowsGetColumn exFrame exView "lat" [DatumVal.vInt8 7] DataType.eInt64 =
      [DatumVal.vInt8 7] ∧
    viewRowsGetColumn exFrame exView "lat" [] DataType.eInt32 =
      (exView.observedRows exFrame).map (fun r => r.getColumn 0) := by
  constructor
  · exact (c8_getColumn_spec exFrame exView "lat" [DatumVal.vInt8 7]
      DataType.eInt64).2.1 0 (by decide) (by decide)
  · exact ((c8_getColumn_spec exFrame exView "lat" [] DataType.eInt32).2.2 0
      (by decide) (by decide)).1

theorem addColumnToRow_fold_sticky (meta : ColumnMetadata) (args : List DatumVal)
    (row : DataRow) (ci : Nat) :
    args.foldl (addColumnToRow meta) (row, false, ci) = (row, false, ci) := by
  induction args with
  | nil => rfl
  | cons a rest ih =>
    rw [List.foldl_cons]
    have hstep : addColumnToRow meta (row, false, ci) a = (row, false, ci) := by
      rw [addColumnToRow]
      simp
    rw [hstep, ih]

theorem addColumnToRow_fold_ok (meta : ColumnMetadata) :
    ∀ (args : List DatumVal) (rowId : Int) (acc : List DatumVal),
      (∀ k, k < args.length → (args.getD k DatumVal.dflt).type = meta.getType (acc.length + k)) →
      args.foldl (addColumnToRow meta) (⟨rowId, acc⟩, true, acc.length) =
        (⟨rowId, acc ++ args⟩, true, acc.length + args.length) := by
  intro args
  induction args with
  | nil =>
    intro rowId acc h
    simp
  | cons a rest ih =>
    intro rowId acc h
    rw [List.foldl_cons]
    have ha : a.type = meta.getType acc.length := by
      have h0 := h 0 (by simp)
      simpa using h0
    have hstep : addColumnToRow meta (⟨rowId, acc⟩, true, acc.length) a =
        (⟨rowId, acc ++ [a]⟩, true, acc.length + 1) := by
      rw [addColumnToRow]
      simp [ha]
    rw [hstep]
    have hlen : acc.length + 1 = (acc ++ [a]).length := by simp
    rw [hlen]
    have hrest := ih rowId (acc ++ [a]) ?_
    · rw [hrest]
      have h1 : (acc ++ [a]) ++ rest = acc ++ a :: rest := by simp
      have h2 : (acc ++ [a]).length + rest.length = acc.length + (a :: rest).length := by
        simp only [List.length_append, List.length_cons, List.length_nil]
        omega
      rw [h1, h2]
    · intro k hk
      have hk1 := h (k + 1) (by simpa using Nat.succ_lt_succ hk)
      rw [List.getD_cons_succ] at hk1
      have hlen2 : (acc ++ [a]).length = acc.length + 1 := by simp
      rw [hlen2]
      have harith : acc.length + (k + 1) = acc.length + 1 + k := by omega
      rw [harith] at hk1
      exact hk1

theorem addColumnToRow_fold_fail (meta : ColumnMetadata) :
    ∀ (args : List DatumVal) (rowId : Int) (acc : List DatumVal),
      (∃ k, k < args.length ∧ (args.getD k DatumVal.dflt).type ≠ meta.getType (acc.length + k)) →
      (args.foldl (addColumnToRow meta) (⟨rowId, acc⟩, true, acc.length)).2.1 = false := by
  intro args
  induction args with
  | nil =>
    rintro rowId acc ⟨k, hk, -⟩
    simp at hk
  | cons a rest ih =>
    rintro rowId acc ⟨k, hk, hne⟩
    rw [List.foldl_cons]
    by_cases ha : a.type = meta.getType acc.length
    · have hstep : addColumnToRow meta (⟨rowId, acc⟩, true, acc.length) a =
          (⟨rowId, acc ++ [a]⟩, true, acc.length + 1) := by
        rw [addColumnToRow]
        simp [ha]
      rw [hstep]
      have hk0 : k ≠ 0 := by
        intro h0
        rw [h0, List.getD_cons_zero, Nat.add_zero] at hne
        exact hne ha
      have hlen : acc.length + 1 = (acc ++ [a]).length := by simp
      rw [hlen]
      refine ih rowId (acc ++ [a]) ⟨k - 1, ?_, ?_⟩
      · simp at hk
        omega
      · obtain ⟨k1, rfl⟩ := Nat.exists_eq_succ_of_ne_zero hk0
        rw [List.getD_cons_succ] at hne
        simp only [Nat.succ_sub_one]
        have hlen2 : (acc ++ [a]).length = acc.length + 1 := by simp
        rw [hlen2]
        have harith : acc.length + 1 + k1 = acc.length + (k1 + 1) := by omega
        rw [harith]
        exact hne
    · have hstep : addColumnToRow meta (⟨rowId, acc⟩, true, acc.length) a =
          (⟨rowId, acc⟩, false, acc.length) := by
        rw [addColumnToRow]
        simp [ha]
      rw [hstep, addColumnToRow_fold_sticky]

theorem frameRowsAppendNewRow_eq (f : FrameRowsData) (args : List DatumVal) :
    frameRowsAppendNewRow f args =
      if 0 < f.getSizeCols ∧ args.length = f.getSizeCols ∧
          (∀ i, i < args.length → f.getPermission i = Permission.eReadWrite) ∧
          (∀ k, k < args.length → (args.getD k DatumVal.dflt).type = f.getType k)
        then (f.appendNewRow ⟨f.getMaxId + 1, args⟩, true)
        else (f, false) := by
  rw [frameRowsAppendNewRow]
  by_cases h1 : 0 < f.getSizeCols
  swap
  · rw [if_neg h1, if_neg (by tauto)]
  rw [if_pos h1]
  by_cases h2 : args.length = f.getSizeCols
  swap
  · rw [if_neg h2, if_neg (by tauto)]
  rw [if_pos h2]
  by_cases h3 : ∀ i, i < args.length → f.getPermission i = Permission.eReadWrite
  swap
  · have hall : ((List.range args.length).all
        (fun i => f.getPermission i == Permission.eReadWrite)) = false := by
      rw [← Bool.not_eq_true, List.all_eq_true]
      intro hforall
      apply h3
      intro i hi
      have hm := hforall i (List.mem_range.mpr hi)
      simpa using hm
    rw [hall]
    simp only [Bool.false_eq_true, if_false]
    rw [if_neg (by tauto)]
  have hall : ((List.range args.length).all
      (fun i => f.getPermission i == Permission.eReadWrite)) = true := by
    rw [List.all_eq_true]
    intro i hi
    simpa using h3 i (List.mem_range.mp hi)
  rw [hall]
  rw [if_pos rfl]
  by_cases h4 : ∀ k, k < args.length → (args.getD k DatumVal.dflt).type = f.getType k
  · have hfold := addColumnToRow_fold_ok f.columnMetadata args (f.getMaxId + 1) [] ?_
    · simp only [List.length_nil, Nat.zero_add, List.nil_append] at hfold
      rw [hfold]
      rw [if_pos rfl, if_pos ⟨h1, h2, h3, h4⟩]
    · intro k hk
      have hk4 := h4 k hk
      simpa [FrameRowsData.getType] using hk4
  · have hex : ∃ k, k < args.length ∧
        (args.getD k DatumVal.dflt).type ≠ f.columnMetadata.getType ((List.nil (α := DatumVal)).length + k) := by
      push_neg at h4
      obtain ⟨k, hk, hne⟩ := h4
      refine ⟨k, hk, ?_⟩
      simpa [FrameRowsData.getType] using hne
    have hfoldfail := addColumnToRow_fold_fail f.columnMetadata args (f.getMaxId + 1) [] hex
    simp only [List.length_nil] at hfoldfail
    rw [hfoldfail]
    simp only [Bool.false_eq_true, if_false]
    rw [if_neg (by tauto)]

theorem frameColsAppendNewRow_eq (f : FrameColsData) (args : List DatumVal) :
    frameColsAppendNewRow f args =
      if 0 < f.getSizeCols ∧ args.length = f.getSizeCols ∧
          (∀ i, i < args.length → f.getPermission i = Permission.eReadWrite) ∧
          (∀ k, k < args.length → (args.getD k DatumVal.dflt).type = f.getType k)
        then (f.appendNewRow ⟨f.getMaxId + 1, args⟩, true)
        else (f, false) := by
  rw [frameColsAppendNewRow]
  by_cases h1 : 0 < f.getSizeCols
  swap
  · rw [if_neg h1, if_neg (by tauto)]
  rw [if_pos h1]
  by_cases h2 : args.length = f.getSizeCols
  swap
  · rw [if_neg h2, if_neg (by tauto)]
  rw [if_pos h2]
  by_cases h3 : ∀ i, i < args.length → f.getPermission i = Permission.eReadWrite
  swap
  · have hall : ((List.range args.length).all
        (fun i => f.getPermission i == Permission.eReadWrite)) = false := by
      rw [← Bool.not_eq_true, List.all_eq_true]
      intro hforall
      apply h3
      intro i hi
      have hm := hforall i (List.mem_range.mpr hi)
      simpa using hm
    rw [hall]
    simp only [Bool.false_eq_true, if_false]
    rw [if_neg (by tauto)]
  have hall : ((List.range args.length).all
      (fun i => f.getPermission i == Permission.eReadWrite)) = true := by
    rw [List.all_eq_true]
    intro i hi
    simpa using h3 i (List.mem_range.mp hi)
  rw [hall]
  rw [if_pos rfl]
  by_cases h4 : ∀ k, k < args.length → (args.getD k DatumVal.dflt).type = f.getType k
  · have hfold := addColumnToRow_fold_ok f.columnMetadata args (f.getMaxId + 1) [] ?_
    · simp only [List.length_nil, Nat.zero_add, List.nil_append] at hfold
      rw [hfold]
      rw [if_pos rfl, if_pos ⟨h1, h2, h3, h4⟩]
    · intro k hk
      have hk4 := h4 k hk
      simpa [FrameColsData.getType] using hk4
  · have hex : ∃ k, k < args.length ∧
        (args.getD k DatumVal.dflt).type ≠ f.columnMetadata.getType ((List.nil (α := DatumVal)).length + k) := by
      push_neg at h4
      obtain ⟨k, hk, hne⟩ := h4
      refine ⟨k, hk, ?_⟩
      simpa [FrameColsData.getType] using hne
    have hfoldfail := addColumnToRow_fold_fail f.columnMetadata args (f.getMaxId + 1) [] hex
    simp only [List.length_nil] at hfoldfail
    rw [hfoldfail]
    simp only [Bool.false_eq_true, if_false]
    rw [if_neg (by tauto)]

/-- C2: the variadic `appendNewRow` of either layout: when no columns are
configured, or the argument count differs from the column count, or some
target column is read-only, or some argument's runtime type disagrees with
its column's schema type, then the whole world - frame data, row count and
attached views - is unchanged (the error is only logged); otherwise
exactly one new row with id = currentMaxId + 1 is committed and every
attached view is notified with the updated frame. -/
theorem c2_append_row_spec (w : WorldRows) (c : WorldCols) (args : List DatumVal) :
    ((w.frame.getSizeCols = 0 ∨ args.length ≠ w.frame.getSizeCols ∨
      (∃ i, i < args.length ∧ w.frame.getPermission i ≠ Permission.eReadWrite) ∨
      (∃ k, k < args.length ∧ (args.getD k DatumVal.dflt).type ≠ w.frame.getType k)) →
      w.applyOp (Op.appendNewRow args) = w) ∧
    ((0 < w.frame.getSizeCols ∧ args.length = w.frame.getSizeCols ∧
      (∀ i, i < args.length → w.frame.getPermission i = Permission.eReadWrite) ∧
      (∀ k, k < args.length → (args.getD k DatumVal.dflt).type = w.frame.getType k)) →
      (w.applyOp (Op.appendNewRow args)).frame.dataRows =
        w.frame.dataRows ++ [⟨w.frame.getMaxId + 1, args⟩] ∧
      (w.applyOp (Op.appendNewRow args)).frame.columnMetadata =
        w.frame.columnMetadata.updateMaxId (w.frame.getMaxId + 1) ∧
      (w.applyOp (Op.appendNewRow args)).views =
        w.views.map (fun _ => WorldRows.snapshot (w.applyOp (Op.appendNewRow args)).frame)) ∧
    ((c.frame.getSizeCols = 0 ∨ args.length ≠ c.frame.getSizeCols ∨
      (∃ i, i < args.length ∧ c.frame.getPermission i ≠ Permission.eReadWrite) ∨
      (∃ k, k < args.length ∧ (args.getD k DatumVal.dflt).type ≠ c.frame.getType k)) →
      c.applyOp (Op.appendNewRow args) = c) ∧
    ((0 < c.frame.getSizeCols ∧ args.length = c.frame.getSizeCols ∧
      (∀ i, i < args.length → c.frame.getPermission i = Permission.eReadWrite) ∧
      (∀ k, k < args.length → (args.getD k DatumVal.dflt).type = c.frame.getType k)) →
      (c.applyOp (Op.appendNewRow args)).frame.ids =
        c.frame.ids ++ [c.frame.getMaxId + 1] ∧
      (c.applyOp (Op.appendNewRow args)).frame.dataColumns =
        List.zipWith (fun col v => col ++ [v]) c.frame.dataColumns args ∧
      (c.applyOp (Op.appendNewRow args)).frame.columnMetadata =
        c.frame.columnMetadata.updateMaxId (c.frame.getMaxId + 1) ∧
      (c.applyOp (Op.appendNewRow args)).views =
        c.views.map (fun _ => WorldCols.snapshot (c.applyOp (Op.appendNewRow args)).frame)) := by
  refine ⟨?_, ?_, ?_, ?_⟩
  · intro herr
    have hne : ¬(0 < w.frame.getSizeCols ∧ args.length = w.frame.getSizeCols ∧
        (∀ i, i < args.length → w.frame.getPermission i = Permission.eReadWrite) ∧
        (∀ k, k < args.length → (args.getD k DatumVal.dflt).type = w.frame.getType k)) := by
      rintro ⟨a, b, cc, dd⟩
      rcases herr with h | h | ⟨i, hi, hp⟩ | ⟨k, hk, ht⟩
      · omega
      · exact h b
      · exact hp (cc i hi)
      · exact ht (dd k hk)
    simp only [WorldRows.applyOp]
    rw [frameRowsAppendNewRow_eq, if_neg hne]
    simp
  · intro hok
    simp only [WorldRows.applyOp]
    rw [frameRowsAppendNewRow_eq, if_pos hok]
    exact ⟨rfl, rfl, rfl⟩
  · intro herr
    have hne : ¬(0 < c.frame.getSizeCols ∧ args.length = c.frame.getSizeCols ∧
        (∀ i, i < args.length → c.frame.getPermission i = Permission.eReadWrite) ∧
        (∀ k, k < args.length → (args.getD k DatumVal.dflt).type = c.frame.getType k)) := by
      rintro ⟨a, b, cc, dd⟩
      rcases herr with h | h | ⟨i, hi, hp⟩ | ⟨k, hk, ht⟩
      · omega
      · exact h b
      · exact hp (cc i hi)
      · exact ht (dd k hk)
    simp only [WorldCols.applyOp]
    rw [frameColsAppendNewRow_eq, if_neg hne]
    simp
  · intro hok
    simp only [WorldCols.applyOp]
    rw [frameColsAppendNewRow_eq, if_pos hok]
    exact ⟨rfl, rfl, rfl, rfl⟩

theorem c2_append_row_spec_witness :
    WorldRows.applyOp exWorld (Op.appendNewRow [DatumVal.vInt8 0, DatumVal.vInt64 1]) =
      exWorld ∧
    (WorldRows.applyOp exWorld
        (Op.appendNewRow [DatumVal.vInt32 7, DatumVal.vInt64 8])).frame.dataRows =
      exWorld.frame.dataRows ++
        [⟨exWorld.frame.getMaxId + 1, [DatumVal.vInt32 7, DatumVal.vInt64 8]⟩] ∧
    (WorldCols.applyOp exWorldCols
        (Op.appendNewRow [DatumVal.vInt32 7, DatumVal.vInt64 8])).frame.ids =
      exWorldCols.frame.ids ++ [exWorldCols.frame.getMaxId + 1] := by
  refine ⟨?_, ?_, ?_⟩
  · exact (c2_append_row_spec exWorld exWorldCols [DatumVal.vInt8 0, DatumVal.vInt64 1]).1
      (Or.inr (Or.inr (Or.inr ⟨0, by decide, by decide⟩)))
  · exact ((c2_append_row_spec exWorld exWorldCols
      [DatumVal.vInt32 7, DatumVal.vInt64 8]).2.1
      ⟨by decide, by decide, by decide, by decide⟩).1
  · exact ((c2_append_row_spec exWorld exWorldCols
      [DatumVal.vInt32 7, DatumVal.vInt64 8]).2.2.2
      ⟨by decide, by decide, by decide, by decide⟩).1

/-! C5: id monotonicity over sequences of row appends and removals. -/

theorem frameRowsRemoveRow_effect (f : FrameRowsData) (i : Int) :
    (frameRowsRemoveRow f i).getMaxId = f.getMaxId ∧
    (frameRowsRemoveRow f i).dataRows.Sublist f.dataRows := by
  rw [frameRowsRemoveRow]
  split
  · exact ⟨rfl, List.eraseIdx_sublist _ _⟩
  · exact ⟨rfl, List.Sublist.refl _⟩

theorem appendNewRow_maxId (f : FrameRowsData) (args : List DatumVal) :
    (f.appendNewRow ⟨f.getMaxId + 1, args⟩).getMaxId = f.getMaxId + 1 := by
  rw [FrameRowsData.appendNewRow, FrameRowsData.getMaxId, FrameRowsData.getMaxId,
    ColumnMetadata.updateMaxId]
  refine max_eq_right ?_
  show f.columnMetadata.maxId ≤ f.columnMetadata.maxId + 1
  omega

theorem runRowOps_spec (ops : List RowOp) : ∀ (f : FrameRowsData),
    (∀ k, k < (runRowOps ops f).2.length →
      (runRowOps ops f).2.getD k 0 = f.getMaxId + (k : Int) + 1) ∧
    (runRowOps ops f).1.getMaxId = f.getMaxId + ((runRowOps ops f).2.length : Int) ∧
    ((∀ r ∈ f.dataRows, r.id ≤ f.getMaxId) ∧ (f.dataRows.map DataRow.id).Nodup →
      (∀ r ∈ (runRowOps ops f).1.dataRows, r.id ≤ (runRowOps ops f).1.getMaxId) ∧
      ((runRowOps ops f).1.dataRows.map DataRow.id).Nodup) := by
  induction ops with
  | nil =>
    intro f
    have hlen0 : (runRowOps ([] : List RowOp) f).2.length = 0 := rfl
    refine ⟨?_, ?_, fun h => h⟩
    · intro k hk
      omega
    · rw [hlen0]
      show f.getMaxId = f.getMaxId + ((0 : Nat) : Int)
      simp
  | cons op rest ih =>
    intro f
    match op with
    | RowOp.remove i =>
      have hrem := frameRowsRemoveRow_effect f i
      have hr := ih (frameRowsRemoveRow f i)
      rw [hrem.1] at hr
      rw [runRowOps]
      refine ⟨hr.1, hr.2.1, ?_⟩
      intro h
      refine hr.2.2 ⟨?_, ?_⟩
      · intro r hrmem
        exact h.1 r (hrem.2.mem hrmem)
      · exact (hrem.2.map DataRow.id).nodup h.2
    | RowOp.append args =>
      have hchar := frameRowsAppendNewRow_eq f args
      by_cases hcond : (0 < f.getSizeCols ∧ args.length = f.getSizeCols ∧
          (∀ i, i < args.length → f.getPermission i = Permission.eReadWrite) ∧
          (∀ k, k < args.length → (args.getD k DatumVal.dflt).type = f.getType k))
      · have hval : frameRowsAppendNewRow f args =
            (f.appendNewRow ⟨f.getMaxId + 1, args⟩, true) := by
          rw [hchar, if_pos hcond]
        have hmax := appendNewRow_maxId f args
        have hr := ih (f.appendNewRow ⟨f.getMaxId + 1, args⟩)
        rw [hmax] at hr
        rw [runRowOps, hval]
        dsimp only
        rw [if_pos rfl]
        simp only [List.singleton_append]
        refine ⟨?_, ?_, ?_⟩
        · intro k hk
          match k with
          | 0 =>
            rw [List.getD_cons_zero]
            omega
          | Nat.succ k1 =>
            rw [List.getD_cons_succ]
            rw [List.length_cons] at hk
            have hv := hr.1 k1 (by omega)
            rw [hv]
            omega
        · rw [List.length_cons, hr.2.1]
          omega
        · intro h
          refine hr.2.2 ⟨?_, ?_⟩
          · intro r hrmem
            have hmem2 : r ∈ f.dataRows ++
                [({ id := f.getMaxId + 1, columns := args } : DataRow)] := hrmem
            rcases List.mem_append.mp hmem2 with hm | hm
            · have hb := h.1 r hm
              omega
            · rw [List.mem_singleton.mp hm]
          · have hrows : (f.appendNewRow ⟨f.getMaxId + 1, args⟩).dataRows =
                f.dataRows ++ [⟨f.getMaxId + 1, args⟩] := rfl
            rw [hrows]
            simp only [List.map_append, List.map_cons, List.map_nil]
            refine List.Nodup.append h.2 (List.nodup_singleton _) ?_
            intro x hx1 hx2
            rw [List.mem_singleton.mp hx2] at hx1
            obtain ⟨r, hrm, hrid⟩ := List.mem_map.mp hx1
            have hb := h.1 r hrm
            have hx : r.id = f.getMaxId + 1 := hrid
            omega
      · have hval : frameRowsAppendNewRow f args = (f, false) := by
          rw [hchar, if_neg hcond]
        have hr := ih f
        rw [runRowOps, hval]
        dsimp only
        rw [if_neg (by simp)]
        simp only [List.nil_append]
        exact hr

theorem eq_range_map {α : Type} (l : List α) (g : Nat → α)
    (h : ∀ (k : Nat), (hk : k < l.length) → l[k] = g k) :
    l = (List.range l.length).map g := by
  refine List.ext_getElem (by simp) ?_
  intro n h1 h2
  rw [List.getElem_map, List.getElem_range]
  exact h n h1

theorem foldl_max_range_succ (k : Nat) :
    (((List.range k).map (fun j : Nat => (j : Int) + 1)).foldl max 0) = (k : Int) := by
  induction k with
  | zero => rfl
  | succ k ih =>
    rw [List.range_succ, List.map_append, List.foldl_append, ih]
    simp only [List.map_cons, List.map_nil, List.foldl_cons, List.foldl_nil]
    push_cast
    omega

theorem configColumns_empty_state (cols : List ColumnMetadatum) :
    (FrameRowsData.empty.configColumns cols).getMaxId = 0 ∧
    (FrameRowsData.empty.configColumns cols).dataRows = [] := by
  rw [FrameRowsData.configColumns]
  split
  · exact ⟨rfl, rfl⟩
  · split
    · exact ⟨rfl, rfl⟩
    · exact ⟨rfl, rfl⟩

/-- C5: starting from a freshly configured frame, after any sequence of row
appends and removals all row ids present in the frame are pairwise
distinct; the ids assigned to successfully appended rows are exactly
1, 2, 3, ... in order (strictly increasing, so no id - in particular no
removed id - is ever assigned twice); and each newly assigned id equals
the maximum id assigned so far (0 when none) plus one. -/
theorem c5_id_monotonicity (cols : List ColumnMetadatum) (ops : List RowOp) :
    (((runRowOps ops (FrameRowsData.empty.configColumns cols)).1.dataRows.map
        DataRow.id).Nodup) ∧
    (runRowOps ops (FrameRowsData.empty.configColumns cols)).2 =
      (List.range (runRowOps ops (FrameRowsData.empty.configColumns cols)).2.length).map
        (fun j : Nat => (j : Int) + 1) ∧
    List.Pairwise (fun a b => a < b)
      (runRowOps ops (FrameRowsData.empty.configColumns cols)).2 ∧
    (∀ k, k < (runRowOps ops (FrameRowsData.empty.configColumns cols)).2.length →
      (runRowOps ops (FrameRowsData.empty.configColumns cols)).2.getD k 0 =
        ((runRowOps ops (FrameRowsData.empty.configColumns cols)).2.take k).foldl
          max 0 + 1) := by
  have h0 := configColumns_empty_state cols
  have hspec := runRowOps_spec ops (FrameRowsData.empty.configColumns cols)
  rw [h0.1] at hspec
  have hassigned : (runRowOps ops (FrameRowsData.empty.configColumns cols)).2 =
      (List.range (runRowOps ops (FrameRowsData.empty.configColumns cols)).2.length).map
        (fun j : Nat => (j : Int) + 1) := by
    refine eq_range_map _ _ ?_
    intro k hk
    have hg := hspec.1 k hk
    rw [List.getD_eq_getElem _ _ hk] at hg
    rw [hg]
    omega
  refine ⟨?_, hassigned, ?_, ?_⟩
  · refine (hspec.2.2 ⟨?_, ?_⟩).2
    · intro r hr
      rw [h0.2] at hr
      exact absurd hr (List.not_mem_nil r)
    · rw [h0.2]
      exact List.nodup_nil
  · rw [hassigned]
    refine List.Pairwise.map _ ?_ (List.pairwise_lt_range _)
    intro a b hab
    omega
  · intro k hk
    have hget := hspec.1 k hk
    rw [hget]
    rw [hassigned, ← List.map_take, List.take_range]
    have hmin : k ⊓ (runRowOps ops (FrameRowsData.empty.configColumns cols)).2.length = k :=
      min_eq_left (le_of_lt hk)
    rw [hmin, foldl_max_range_succ]
    omega

theorem c9_slice_unknown_column_witness :
    (exWorld.sliceThreshold 0 "missing" Comparison.eLessThan (DatumVal.vInt32 0)).frame =
      exWorld.frame ∧
    (exWorld.sliceThreshold 0 "missing" Comparison.eLessThan (DatumVal.vInt32 0)).views =
      exWorld.views ++ [⟨ColumnMetadata.empty, []⟩] :=
  c9_slice_unknown_column exWorld 0 "missing" Comparison.eLessThan (DatumVal.vInt32 0)
    (by decide)

/-! C3: view consistency under frame mutations. -/

theorem synced_print_rows (f : FrameRowsData) (vd : ViewRowsData)
    (h : WorldRows.ViewSynced f vd) : vd.print f = f.print := by
  obtain ⟨hm, hr⟩ := h
  rw [ViewRowsData.print, FrameRowsData.print, hm]
  have hobs : vd.observedRows f = f.dataRows := by
    rw [ViewRowsData.observedRows, hr]
    exact range_map_getD f.dataRows DataRow.dflt
  rw [hobs]

theorem synced_print_cols (f : FrameColsData) (vd : ViewColsData)
    (h : WorldCols.ViewSynced f vd) : vd.print f = f.print := by
  obtain ⟨hm, hi, hc⟩ := h
  rw [ViewColsData.print, FrameColsData.print, hm, hi]
  have hobs : vd.observedCols f = f.dataColumns := by
    rw [ViewColsData.observedCols, hc]
    exact range_map_getD f.dataColumns []
  rw [hobs]
  rfl

theorem frameRowsSetColumn_meta_len (f : FrameRowsData) (name : String) (t : DataType)
    (values : List DatumVal) :
    (frameRowsSetColumn f name t values).columnMetadata = f.columnMetadata ∧
    (frameRowsSetColumn f name t values).dataRows.length = f.dataRows.length := by
  rw [frameRowsSetColumn]
  split
  · split
    · split
      · rename_i hg
        refine ⟨rfl, ?_⟩
        dsimp only
        simp only [List.length_zipWith]
        have h2 : values.length = f.dataRows.length := hg.2.1
        omega
      · exact ⟨rfl, rfl⟩
    · exact ⟨rfl, rfl⟩
  · exact ⟨rfl, rfl⟩

theorem frameColsSetColumn_fields (f : FrameColsData) (name : String) (t : DataType)
    (values : List DatumVal) :
    (frameColsSetColumn f name t values).columnMetadata = f.columnMetadata ∧
    (frameColsSetColumn f name t values).ids = f.ids ∧
    (frameColsSetColumn f name t values).dataColumns.length = f.dataColumns.length := by
  rw [frameColsSetColumn]
  split
  · split
    · split
      · exact ⟨rfl, rfl, by dsimp only; simp only [List.length_set]⟩
      · exact ⟨rfl, rfl, rfl⟩
    · exact ⟨rfl, rfl, rfl⟩
  · exact ⟨rfl, rfl, rfl⟩

theorem frameRowsAppendNewRow_fail (f : FrameRowsData) (args : List DatumVal)
    (h : (frameRowsAppendNewRow f args).2 = false) :
    (frameRowsAppendNewRow f args).1 = f := by
  rw [frameRowsAppendNewRow_eq] at h ⊢
  split at h
  · simp at h
  · rename_i hc
    rw [if_neg hc]

theorem frameColsAppendNewRow_fail (f : FrameColsData) (args : List DatumVal)
    (h : (frameColsAppendNewRow f args).2 = false) :
    (frameColsAppendNewRow f args).1 = f := by
  rw [frameColsAppendNewRow_eq] at h ⊢
  split at h
  · simp at h
  · rename_i hc
    rw [if_neg hc]

theorem notify_synced_rows (w : WorldRows) :
    ∀ vd ∈ w.notify.views, WorldRows.ViewSynced w.notify.frame vd := by
  intro vd hvd
  obtain ⟨x, hx, h2⟩ := List.mem_map.mp hvd
  rw [← h2]
  exact ⟨rfl, rfl⟩

theorem notify_synced_cols (w : WorldCols) :
    ∀ vd ∈ w.notify.views, WorldCols.ViewSynced w.notify.frame vd := by
  intro vd hvd
  obtain ⟨x, hx, h2⟩ := List.mem_map.mp hvd
  rw [← h2]
  exact ⟨rfl, rfl, rfl⟩

theorem applyOp_synced_rows (w : WorldRows) (op : Op)
    (hw : ∀ vd ∈ w.views, WorldRows.ViewSynced w.frame vd) :
    ∀ vd ∈ (w.applyOp op).views, WorldRows.ViewSynced (w.applyOp op).frame vd := by
  cases op with
  | setColumn name t values =>
    intro vd hvd
    obtain ⟨hm, hr⟩ := hw vd hvd
    have hf := frameRowsSetColumn_meta_len w.frame name t values
    refine ⟨hm.trans hf.1.symm, ?_⟩
    show vd.rowRefs = List.range (frameRowsSetColumn w.frame name t values).dataRows.length
    rw [hf.2]
    exact hr
  | appendNewRow args =>
    by_cases hok : (frameRowsAppendNewRow w.frame args).2 = true
    · have he : w.applyOp (Op.appendNewRow args) =
          (WorldRows.mk (frameRowsAppendNewRow w.frame args).1 w.views).notify := by
        rw [WorldRows.applyOp, if_pos hok]
      rw [he]
      exact notify_synced_rows _
    · have hfalse : (frameRowsAppendNewRow w.frame args).2 = false := by
        revert hok
        cases (frameRowsAppendNewRow w.frame args).2 <;> simp
      have he : w.applyOp (Op.appendNewRow args) =
          { w with frame := (frameRowsAppendNewRow w.frame args).1 } := by
        rw [WorldRows.applyOp, if_neg hok]
      rw [he, frameRowsAppendNewRow_fail w.frame args hfalse]
      intro vd hvd
      exact hw vd hvd
  | configColumns cols => exact notify_synced_rows _
  | appendNewColumn name t values => exact notify_synced_rows _
  | removeRow i => exact notify_synced_rows _
  | removeColumnByName name => exact notify_synced_rows _
  | removeColumnByIndex i => exact notify_synced_rows _
  | sortRows name order => exact notify_synced_rows _
  | clear => exact notify_synced_rows _

theorem applyOp_synced_cols (w : WorldCols) (op : Op)
    (hw : ∀ vd ∈ w.views, WorldCols.ViewSynced w.frame vd) :
    ∀ vd ∈ (w.applyOp op).views, WorldCols.ViewSynced (w.applyOp op).frame vd := by
  cases op with
  | setColumn name t values =>
    intro vd hvd
    obtain ⟨hm, hi, hc⟩ := hw vd hvd
    have hf := frameColsSetColumn_fields w.frame name t values
    refine ⟨hm.trans hf.1.symm, hi.trans hf.2.1.symm, ?_⟩
    show vd.colRefs =
      List.range (frameColsSetColumn w.frame name t values).dataColumns.length
    rw [hf.2.2]
    exact hc
  | appendNewRow args =>
    by_cases hok : (frameColsAppendNewRow w.frame args).2 = true
    · have he : w.applyOp (Op.appendNewRow args) =
          (WorldCols.mk (frameColsAppendNewRow w.frame args).1 w.views).notify := by
        rw [WorldCols.applyOp, if_pos hok]
      rw [he]
      exact notify_synced_cols _
    · have hfalse : (frameColsAppendNewRow w.frame args).2 = false := by
        revert hok
        cases (frameColsAppendNewRow w.frame args).2 <;> simp
      have he : w.applyOp (Op.appendNewRow args) =
          { w with frame := (frameColsAppendNewRow w.frame args).1 } := by
        rw [WorldCols.applyOp, if_neg hok]
      rw [he, frameColsAppendNewRow_fail w.frame args hfalse]
      intro vd hvd
      exact hw vd hvd
  | configColumns cols => exact notify_synced_cols _
  | appendNewColumn name t values => exact notify_synced_cols _
  | removeRow i => exact notify_synced_cols _
  | removeColumnByName name => exact notify_synced_cols _
  | removeColumnByIndex i => exact notify_synced_cols _
  | sortRows name order => exact notify_synced_cols _
  | clear => exact notify_synced_cols _

theorem applyOps_synced_rows (ops : List Op) : ∀ (w : WorldRows),
    (∀ vd ∈ w.views, WorldRows.ViewSynced w.frame vd) →
    ∀ vd ∈ (w.applyOps ops).views, WorldRows.ViewSynced (w.applyOps ops).frame vd := by
  induction ops with
  | nil => intro w hw; exact hw
  | cons op rest ih =>
    intro w hw
    exact ih (w.applyOp op) (applyOp_synced_rows w op hw)

theorem applyOps_synced_cols (ops : List Op) : ∀ (w : WorldCols),
    (∀ vd ∈ w.views, WorldCols.ViewSynced w.frame vd) →
    ∀ vd ∈ (w.applyOps ops).views, WorldCols.ViewSynced (w.applyOps ops).frame vd := by
  induction ops with
  | nil => intro w hw; exact hw
  | cons op rest ih =>
    intro w hw
    exact ih (w.applyOp op) (applyOp_synced_cols w op hw)

theorem makeView_synced_rows (w : WorldRows)
    (hw : ∀ vd ∈ w.views, WorldRows.ViewSynced w.frame vd) :
    ∀ vd ∈ w.makeView.views, WorldRows.ViewSynced w.makeView.frame vd := by
  intro vd hvd
  rcases List.mem_append.mp hvd with h | h
  · exact hw vd h
  · rw [List.mem_singleton] at h
    rw [h]
    exact ⟨rfl, rfl⟩

theorem makeView_synced_cols (w : WorldCols)
    (hw : ∀ vd ∈ w.views, WorldCols.ViewSynced w.frame vd) :
    ∀ vd ∈ w.makeView.views, WorldCols.ViewSynced w.makeView.frame vd := by
  intro vd hvd
  rcases List.mem_append.mp hvd with h | h
  · exact hw vd h
  · rw [List.mem_singleton] at h
    rw [h]
    exact ⟨rfl, rfl, rfl⟩

/-- C3: starting from any frame of either layout whose attached views are
all up to date, make a fresh view and apply any sequence of mutations
(configure, append row, append column, set column, remove row, remove
column, sort, clear); after the sequence every attached view - the fresh
one and any earlier makeView products, none of them sliced - produces
exactly the frame's own print() output (mutations notify the views; the
const setColumn writes through the shared handles the views hold). -/
theorem c3_view_consistency (w : WorldRows) (c : WorldCols) (ops : List Op)
    (hw : ∀ vd ∈ w.views, WorldRows.ViewSynced w.frame vd)
    (hc : ∀ vd ∈ c.views, WorldCols.ViewSynced c.frame vd) :
    (∀ vd ∈ (WorldRows.applyOps w.makeView ops).views,
      vd.print (WorldRows.applyOps w.makeView ops).frame =
        (WorldRows.applyOps w.makeView ops).frame.print) ∧
    (∀ vd ∈ (WorldCols.applyOps c.makeView ops).views,
      vd.print (WorldCols.applyOps c.makeView ops).frame =
        (WorldCols.applyOps c.makeView ops).frame.print) := by
  constructor
  · intro vd hvd
    exact synced_print_rows _ _
      (applyOps_synced_rows ops w.makeView (makeView_synced_rows w hw) vd hvd)
  · intro vd hvd
    exact synced_print_cols _ _
      (applyOps_synced_cols ops c.makeView (makeView_synced_cols c hc) vd hvd)

/-- C3 witness: the consistency fact at the concrete example worlds, for a
sequence that appends a row, overwrites a column and removes a row. -/
theorem c3_view_consistency_witness :
    (∀ vd ∈ exWorld.views, WorldRows.ViewSynced exWorld.frame vd) ∧
    (∀ vd ∈ exWorldCols.views, WorldCols.ViewSynced exWorldCols.frame vd) ∧
    ((∀ vd ∈ (WorldRows.applyOps exWorld.makeView
        [Op.appendNewRow [DatumVal.vInt32 7, DatumVal.vInt64 40],
         Op.setColumn "tag" DataType.eInt64
           [DatumVal.vInt64 1, DatumVal.vInt64 2, DatumVal.vInt64 3, DatumVal.vInt64 4],
         Op.removeRow 1]).views,
      vd.print (WorldRows.applyOps exWorld.makeView
        [Op.appendNewRow [DatumVal.vInt32 7, DatumVal.vInt64 40],
         Op.setColumn "tag" DataType.eInt64
           [DatumVal.vInt64 1, DatumVal.vInt64 2, DatumVal.vInt64 3, DatumVal.vInt64 4],
         Op.removeRow 1]).frame =
        (WorldRows.applyOps exWorld.makeView
          [Op.appendNewRow [DatumVal.vInt32 7, DatumVal.vInt64 40],
           Op.setColumn "tag" DataType.eInt64
             [DatumVal.vInt64 1, DatumVal.vInt64 2, DatumVal.vInt64 3, DatumVal.vInt64 4],
           Op.removeRow 1]).frame.print) ∧
    (∀ vd ∈ (WorldCols.applyOps exWorldCols.makeView
        [Op.appendNewRow [DatumVal.vInt32 7, DatumVal.vInt64 40],
         Op.setColumn "tag" DataType.eInt64
           [DatumVal.vInt64 1, DatumVal.vInt64 2, DatumVal.vInt64 3, DatumVal.vInt64 4],
         Op.removeRow 1]).views,
      vd.print (WorldCols.applyOps exWorldCols.makeView
        [Op.appendNewRow [DatumVal.vInt32 7, DatumVal.vInt64 40],
         Op.setColumn "tag" DataType.eInt64
           [DatumVal.vInt64 1, DatumVal.vInt64 2, DatumVal.vInt64 3, DatumVal.vInt64 4],
         Op.removeRow 1]).frame =
        (WorldCols.applyOps exWorldCols.makeView
          [Op.appendNewRow [DatumVal.vInt32 7, DatumVal.vInt64 40],
           Op.setColumn "tag" DataType.eInt64
             [DatumVal.vInt64 1, DatumVal.vInt64 2, DatumVal.vInt64 3, DatumVal.vInt64 4],
           Op.removeRow 1]).frame.print)) :=
  ⟨by decide, by decide,
    c3_view_consistency exWorld exWorldCols
      [Op.appendNewRow [DatumVal.vInt32 7, DatumVal.vInt64 40],
       Op.setColumn "tag" DataType.eInt64
         [DatumVal.vInt64 1, DatumVal.vInt64 2, DatumVal.vInt64 3, DatumVal.vInt64 4],
       Op.removeRow 1] (by decide) (by decide)⟩

/-! C1: layout equivalence.  `EquivFrames` is shown to relate the empty
frames and to be preserved by every operation of the shared alphabet;
related frames have equal print() output. -/

theorem getD_eraseIdx {α : Type} (l : List α) (d : α) : ∀ (k i : Nat),
    (l.eraseIdx k).getD i d = if i < k then l.getD i d else l.getD (i + 1) d := by
  induction l with
  | nil =>
    intro k i
    rw [List.eraseIdx_nil]
    split <;> rfl
  | cons x xs ih =>
    intro k i
    cases k with
    | zero =>
      rw [List.eraseIdx_cons_zero, if_neg (Nat.not_lt_zero i)]
      rfl
    | succ k2 =>
      cases i with
      | zero =>
        rw [List.eraseIdx_cons_succ, if_pos (Nat.succ_pos k2)]
        rfl
      | succ i2 =>
        rw [List.eraseIdx_cons_succ, List.getD_cons_succ, ih k2 i2]
        by_cases hik : i2 < k2
        · rw [if_pos hik, if_pos (by omega), List.getD_cons_succ]
        · rw [if_neg hik, if_neg (by omega), List.getD_cons_succ]

theorem map_eraseIdx {α β : Type} (g : α → β) (l : List α) : ∀ (k : Nat),
    (l.eraseIdx k).map g = (l.map g).eraseIdx k := by
  induction l with
  | nil => intro k; rfl
  | cons x xs ih =>
    intro k
    cases k with
    | zero => rfl
    | succ k2 =>
      rw [List.eraseIdx_cons_succ, List.map_cons, List.map_cons,
        List.eraseIdx_cons_succ, ih k2]

theorem getD_map2 {α β : Type} (g : α → β) (l : List α) (d : α) (e : β)
    (he : g d = e) (i : Nat) : (l.map g).getD i e = g (l.getD i d) := by
  by_cases h : i < l.length
  · rw [List.getD_eq_getElem _ _ (by simpa using h), List.getElem_map,
      List.getD_eq_getElem _ _ h]
  · rw [List.getD_eq_default _ _ (by simpa using Nat.le_of_not_lt h),
      List.getD_eq_default _ _ (Nat.le_of_not_lt h), he]

theorem getIndex_lt (m : ColumnMetadata) (name : String) (i : Nat)
    (h : m.getIndex name = some i) : i < m.columns.length := by
  rw [ColumnMetadata.getIndex, List.findIdx?_eq_some_iff_findIdx_eq] at h
  exact h.1

theorem columnExists_pos (m : ColumnMetadata) (name : String)
    (h : m.columnExists name = true) : 0 < m.columns.length := by
  rw [ColumnMetadata.columnExists, List.any_eq_true] at h
  obtain ⟨x, hx, h2⟩ := h
  exact List.length_pos.mpr (List.ne_nil_of_mem hx)

theorem equiv_print (c : FrameColsData) (r : FrameRowsData) (h : EquivFrames c r) :
    c.print = r.print := by
  obtain ⟨hm, hid, hclen, hrow, hcol, hzero, hpt⟩ := h
  rw [FrameColsData.print, FrameRowsData.print, hm, hid]
  have hcells : (List.range (r.dataRows.map DataRow.id).length).map c.matrixRow =
      r.dataRows.map DataRow.columns := by
    refine List.ext_getElem (by simp) ?_
    intro n h1 h2
    have hn : n < r.dataRows.length := by simpa using h2
    rw [List.getElem_map, List.getElem_map, List.getElem_range,
      FrameColsData.matrixRow]
    refine List.ext_getElem ?_ ?_
    · rw [List.length_map, hclen]
      exact (hrow _ (List.getElem_mem hn)).symm
    · intro j hj1 hj2
      have hjc : j < c.dataColumns.length := by simpa using hj1
      rw [List.getElem_map, ← List.getD_eq_getElem c.dataColumns [] hjc, hpt n j,
        List.getD_eq_getElem r.dataRows DataRow.dflt hn]
      exact List.getD_eq_getElem _ _ hj2
  rw [hcells]

theorem equiv_empty : EquivFrames FrameColsData.empty FrameRowsData.empty := by
  refine ⟨rfl, rfl, rfl, ?_, ?_, ?_, ?_⟩
  · intro row hr
    cases hr
  · intro col hc
    cases hc
  · intro h
    rfl
  · intro i j
    rfl

theorem equiv_configColumns (c : FrameColsData) (r : FrameRowsData)
    (cols : List ColumnMetadatum) (h : EquivFrames c r) :
    EquivFrames (c.configColumns cols) (r.configColumns cols) := by
  obtain ⟨hm, hid, hclen, hrow, hcol, hzero, hpt⟩ := h
  have hsz : c.getSizeCols = r.getSizeCols := by
    rw [FrameColsData.getSizeCols, FrameRowsData.getSizeCols, hm]
  rw [FrameColsData.configColumns, FrameRowsData.configColumns, hsz]
  by_cases h1 : 0 < r.getSizeCols
  · rw [if_pos h1, if_pos h1]
    exact ⟨hm, hid, hclen, hrow, hcol, hzero, hpt⟩
  · rw [if_neg h1, if_neg h1]
    by_cases h2 : (cols.map ColumnMetadatum.name).Nodup
    · rw [if_pos h2, if_pos h2]
      have hr0 : r.dataRows = [] := by
        apply hzero
        rw [hm]
        rw [FrameRowsData.getSizeCols] at h1
        omega
      refine ⟨?_, ?_, ?_, ?_, ?_, ?_, ?_⟩
      · rw [hm]
      · exact hid
      · simp
      · intro row hr2
        rw [hr0] at hr2
        cases hr2
      · intro col hc2
        obtain ⟨x, hx, hc3⟩ := List.mem_map.mp hc2
        rw [← hc3, hr0]
        rfl
      · intro hlen0
        exact hr0
      · intro i j
        have hL : ((cols.map (fun _ : ColumnMetadatum => ([] : List DatumVal))).getD j [])
            = [] := by
          by_cases hj : j < cols.length
          · rw [List.getD_eq_getElem _ _ (by simpa using hj), List.getElem_map]
          · rw [List.getD_eq_default _ _ (by simpa using Nat.le_of_not_lt hj)]
        rw [hL, hr0]
        rfl
    · rw [if_neg h2, if_neg h2]
      exact ⟨hm, hid, hclen, hrow, hcol, hzero, hpt⟩

theorem getD_set_eq {α : Type} (l : List α) (k : Nat) (a d : α) (hk : k < l.length) :
    (l.set k a).getD k d = a := by
  rw [List.getD_eq_getElem _ _ (by simpa using hk), List.getElem_set, if_pos rfl]

theorem getD_set_ne {α : Type} (l : List α) (k j : Nat) (a d : α) (hne : k ≠ j) :
    (l.set k a).getD j d = l.getD j d := by
  by_cases hj : j < l.length
  · rw [List.getD_eq_getElem _ _ (by simpa using hj), List.getElem_set, if_neg hne,
      List.getD_eq_getElem _ _ hj]
  · rw [List.getD_eq_default _ _ (by simpa using Nat.le_of_not_lt hj),
      List.getD_eq_default _ _ (Nat.le_of_not_lt hj)]

theorem pointwise_append (dc : List (List DatumVal)) (rows : List DataRow)
    (args : List DatumVal) (mId : Int)
    (hdc : dc.length = args.length)
    (hcol : ∀ col ∈ dc, col.length = rows.length)
    (hrow : ∀ row ∈ rows, row.columns.length = args.length)
    (hpt : ∀ i j : Nat, (dc.getD j []).getD i DatumVal.dflt =
      (rows.getD i DataRow.dflt).columns.getD j DatumVal.dflt) :
    ∀ i j : Nat,
      ((List.zipWith (fun col v => col ++ [v]) dc args).getD j []).getD i DatumVal.dflt =
      ((rows ++ [(⟨mId, args⟩ : DataRow)]).getD i DataRow.dflt).columns.getD j
        DatumVal.dflt := by
  intro i j
  have hzl : (List.zipWith (fun col v => col ++ [v]) dc args).length = args.length := by
    rw [List.length_zipWith, hdc]
    omega
  by_cases hj : j < args.length
  · have hjz : j < (List.zipWith (fun col v => col ++ [v]) dc args).length := by omega
    have hjd : j < dc.length := by omega
    rw [List.getD_eq_getElem _ _ hjz, List.getElem_zipWith]
    have hcl : dc[j].length = rows.length := hcol _ (List.getElem_mem hjd)
    by_cases hi : i < rows.length
    · rw [List.getD_append _ _ _ _ (by omega), ← List.getD_eq_getElem dc [] hjd,
        hpt i j, List.getD_append _ _ _ _ hi]
    · by_cases hieq : i = rows.length
      · subst hieq
        have h1 : (dc[j] ++ [args[j]]).getD rows.length DatumVal.dflt = args[j] := by
          rw [List.getD_eq_getElem _ _ (by simp [hcl])]
          exact List.getElem_concat_length _ _ _ hcl.symm _
        have h2 : (rows ++ [(⟨mId, args⟩ : DataRow)]).getD rows.length DataRow.dflt =
            (⟨mId, args⟩ : DataRow) := by
          rw [List.getD_eq_getElem _ _ (by simp)]
          exact List.getElem_concat_length _ _ _ rfl _
        rw [h1, h2]
        exact (List.getD_eq_getElem args _ hj).symm
      · rw [List.getD_eq_default (dc[j] ++ [args[j]]) DatumVal.dflt (by simp [hcl]; omega),
          List.getD_eq_default (rows ++ [(⟨mId, args⟩ : DataRow)]) DataRow.dflt
            (by simp; omega)]
        rfl
  · rw [List.getD_eq_default (List.zipWith (fun col v => col ++ [v]) dc args) []
      (by omega)]
    by_cases hi : i < rows.length
    · rw [List.getD_append _ _ _ _ hi, List.getD_eq_getElem rows _ hi,
        List.getD_eq_default (rows[i].columns) DatumVal.dflt
          (by rw [hrow _ (List.getElem_mem hi)]; omega)]
      rfl
    · by_cases hieq : i = rows.length
      · subst hieq
        have h2 : (rows ++ [(⟨mId, args⟩ : DataRow)]).getD rows.length DataRow.dflt =
            (⟨mId, args⟩ : DataRow) := by
          rw [List.getD_eq_getElem _ _ (by simp)]
          exact List.getElem_concat_length _ _ _ rfl _
        rw [h2]
        show DatumVal.dflt = args.getD j DatumVal.dflt
        rw [List.getD_eq_default _ _ (by omega)]
      · rw [List.getD_eq_default (rows ++ [(⟨mId, args⟩ : DataRow)]) DataRow.dflt
          (by simp; omega)]
        rfl

theorem equiv_appendNewRow (c : FrameColsData) (r : FrameRowsData)
    (args : List DatumVal) (h : EquivFrames c r) :
    EquivFrames (frameColsAppendNewRow c args).1 (frameRowsAppendNewRow r args).1 := by
  obtain ⟨hm, hid, hclen, hrow, hcol, hzero, hpt⟩ := h
  have hsz : c.getSizeCols = r.getSizeCols := by
    rw [FrameColsData.getSizeCols, FrameRowsData.getSizeCols, hm]
  have hperm2 : ∀ i, c.getPermission i = r.getPermission i := by
    intro i
    rw [FrameColsData.getPermission, FrameRowsData.getPermission, hm]
  have hty2 : ∀ i, c.getType i = r.getType i := by
    intro i
    rw [FrameColsData.getType, FrameRowsData.getType, hm]
  have hmax : c.getMaxId = r.getMaxId := by
    rw [FrameColsData.getMaxId, FrameRowsData.getMaxId, hm]
  have hmlen : c.columnMetadata.columns.length = r.columnMetadata.columns.length := by
    rw [hm]
  rw [frameColsAppendNewRow_eq, frameRowsAppendNewRow_eq]
  simp only [hsz, hperm2, hty2, hmax]
  by_cases hcnd : 0 < r.getSizeCols ∧ args.length = r.getSizeCols ∧
      (∀ i, i < args.length → r.getPermission i = Permission.eReadWrite) ∧
      (∀ k, k < args.length → (args.getD k DatumVal.dflt).type = r.getType k)
  · rw [if_pos hcnd, if_pos hcnd]
    obtain ⟨hp1, hp2, hp3, hp4⟩ := hcnd
    have hargN : args.length = r.columnMetadata.columns.length := hp2
    have hclen2 : c.dataColumns.length = args.length := by
      rw [hclen, hm, ← hargN]
    show EquivFrames (c.appendNewRow ⟨r.getMaxId + 1, args⟩)
      (r.appendNewRow ⟨r.getMaxId + 1, args⟩)
    rw [FrameColsData.appendNewRow, FrameRowsData.appendNewRow]
    refine ⟨?_, ?_, ?_, ?_, ?_, ?_, ?_⟩
    · dsimp only
      rw [hm]
    · dsimp only
      rw [List.map_append, hid]
      rfl
    · dsimp only
      rw [List.length_zipWith, ColumnMetadata.updateMaxId]
      dsimp only
      omega
    · intro row hr2
      dsimp only at hr2 ⊢
      rw [ColumnMetadata.updateMaxId]
      dsimp only
      rcases List.mem_append.mp hr2 with h2 | h2
      · rw [hrow row h2]
      · rw [List.mem_singleton] at h2
        subst h2
        dsimp only
        omega
    · intro col hc2
      dsimp only at hc2 ⊢
      obtain ⟨k, hk, hce⟩ := List.mem_iff_getElem.mp hc2
      rw [List.getElem_zipWith] at hce
      have hkd : k < c.dataColumns.length := by
        rw [List.length_zipWith] at hk
        omega
      rw [← hce, List.length_append, List.length_append,
        hcol _ (List.getElem_mem hkd)]
      simp
    · intro h0
      dsimp only at h0
      rw [ColumnMetadata.updateMaxId] at h0
      dsimp only at h0
      exfalso
      rw [FrameRowsData.getSizeCols] at hp1
      omega
    · dsimp only
      refine pointwise_append c.dataColumns r.dataRows args (r.getMaxId + 1)
        hclen2 hcol ?_ hpt
      intro row hr2
      rw [hrow row hr2, hm, ← hargN]
  · rw [if_neg hcnd, if_neg hcnd]
    exact ⟨hm, hid, hclen, hrow, hcol, hzero, hpt⟩

theorem equiv_setColumn (c : FrameColsData) (r : FrameRowsData) (name : String)
    (t : DataType) (values : List DatumVal) (h : EquivFrames c r) :
    EquivFrames (frameColsSetColumn c name t values)
      (frameRowsSetColumn r name t values) := by
  obtain ⟨hm, hid, hclen, hrow, hcol, hzero, hpt⟩ := h
  have hex : c.columnExists name = r.columnExists name := by
    rw [FrameColsData.columnExists, FrameRowsData.columnExists, hm]
  have hgi : c.getIndex name = r.getIndex name := by
    rw [FrameColsData.getIndex, FrameRowsData.getIndex, hm]
  have hsr : c.getSizeRows = r.getSizeRows := by
    rw [FrameColsData.getSizeRows, FrameRowsData.getSizeRows, hid, List.length_map]
  have hty2 : ∀ i, c.getType i = r.getType i := by
    intro i
    rw [FrameColsData.getType, FrameRowsData.getType, hm]
  have hperm2 : ∀ i, c.getPermission i = r.getPermission i := by
    intro i
    rw [FrameColsData.getPermission, FrameRowsData.getPermission, hm]
  rw [frameColsSetColumn, frameRowsSetColumn, hex, hgi]
  simp only [hty2, hsr, hperm2]
  by_cases hex2 : r.columnExists name = true
  · rw [if_pos hex2, if_pos hex2]
    cases hgi2 : r.getIndex name with
    | none => exact ⟨hm, hid, hclen, hrow, hcol, hzero, hpt⟩
    | some index =>
      dsimp only
      by_cases hg : t = r.getType index ∧ values.length = r.getSizeRows ∧
          r.getPermission index = Permission.eReadWrite
      · rw [if_pos hg, if_pos hg]
        have hvn : values.length = r.dataRows.length := hg.2.1
        have hidx : index < r.columnMetadata.columns.length :=
          getIndex_lt r.columnMetadata name index hgi2
        have hidxc : index < c.dataColumns.length := by
          rw [hclen, hm]
          exact hidx
        have hmap : (List.zipWith (fun row v => (⟨row.id, row.columns.set index v⟩ :
            DataRow)) r.dataRows values).map DataRow.id = r.dataRows.map DataRow.id := by
          refine List.ext_getElem ?_ ?_
          · rw [List.length_map, List.length_map, List.length_zipWith]
            omega
          · intro k h1 h2
            rw [List.getElem_map, List.getElem_map, List.getElem_zipWith]
        refine ⟨?_, ?_, ?_, ?_, ?_, ?_, ?_⟩
        · exact hm
        · dsimp only
          rw [hmap]
          exact hid
        · dsimp only
          rw [List.length_set]
          exact hclen
        · intro row hr2
          dsimp only at hr2 ⊢
          obtain ⟨k, hk, hre⟩ := List.mem_iff_getElem.mp hr2
          rw [List.getElem_zipWith] at hre
          have hkn : k < r.dataRows.length := by
            rw [List.length_zipWith] at hk
            omega
          rw [← hre]
          dsimp only
          rw [List.length_set]
          exact hrow _ (List.getElem_mem hkn)
        · intro col hc2
          dsimp only at hc2 ⊢
          rw [List.length_zipWith, ← hvn, Nat.min_self]
          rcases List.mem_or_eq_of_mem_set hc2 with h2 | h2
          · rw [hcol col h2, hvn]
          · rw [h2]
        · intro h0
          dsimp only at h0 ⊢
          rw [hzero h0]
          rfl
        · intro i j
          dsimp only
          have hRi : (List.zipWith (fun row v => (⟨row.id, row.columns.set index v⟩ :
              DataRow)) r.dataRows values).getD i DataRow.dflt =
              if i < r.dataRows.length then
                ⟨(r.dataRows.getD i DataRow.dflt).id,
                 (r.dataRows.getD i DataRow.dflt).columns.set index
                   (values.getD i DatumVal.dflt)⟩
              else DataRow.dflt := by
            by_cases hi : i < r.dataRows.length
            · rw [if_pos hi,
                List.getD_eq_getElem _ _ (by rw [List.length_zipWith]; omega),
                List.getElem_zipWith, List.getD_eq_getElem _ _ hi,
                List.getD_eq_getElem _ _ (by omega)]
            · rw [if_neg hi,
                List.getD_eq_default _ _ (by rw [List.length_zipWith]; omega)]
          rw [hRi]
          by_cases hji : j = index
          · subst hji
            rw [getD_set_eq _ _ _ _ hidxc]
            by_cases hi : i < r.dataRows.length
            · rw [if_pos hi]
              dsimp only
              have hcil : j < (r.dataRows.getD i DataRow.dflt).columns.length := by
                rw [List.getD_eq_getElem _ _ hi, hrow _ (List.getElem_mem hi), hm]
                exact hidx
              rw [getD_set_eq _ _ _ _ hcil]
            · rw [if_neg hi, List.getD_eq_default values _ (by omega)]
              rfl
          · have hne : index ≠ j := fun hh => hji hh.symm
            rw [getD_set_ne _ _ _ _ _ hne, hpt i j]
            by_cases hi : i < r.dataRows.length
            · rw [if_pos hi]
              dsimp only
              rw [getD_set_ne _ _ _ _ _ hne]
            · rw [if_neg hi, List.getD_eq_default r.dataRows _ (by omega)]
      · rw [if_neg hg, if_neg hg]
        exact ⟨hm, hid, hclen, hrow, hcol, hzero, hpt⟩
  · rw [if_neg hex2, if_neg hex2]
    exact ⟨hm, hid, hclen, hrow, hcol, hzero, hpt⟩

theorem pointwise_appendCol (dc : List (List DatumVal)) (rows : List DataRow)
    (values : List DatumVal)
    (hrow : ∀ row ∈ rows, row.columns.length = dc.length)
    (hvn : values.length = rows.length)
    (hpt : ∀ i j : Nat, (dc.getD j []).getD i DatumVal.dflt =
      (rows.getD i DataRow.dflt).columns.getD j DatumVal.dflt) :
    ∀ i j : Nat,
      ((dc ++ [values]).getD j []).getD i DatumVal.dflt =
      ((List.zipWith (fun row v => (⟨row.id, row.columns ++ [v]⟩ : DataRow)) rows
        values).getD i DataRow.dflt).columns.getD j DatumVal.dflt := by
  intro i j
  have hRi : (List.zipWith (fun row v => (⟨row.id, row.columns ++ [v]⟩ : DataRow)) rows
      values).getD i DataRow.dflt =
      if i < rows.length then
        ⟨(rows.getD i DataRow.dflt).id,
         (rows.getD i DataRow.dflt).columns ++ [values.getD i DatumVal.dflt]⟩
      else DataRow.dflt := by
    by_cases hi : i < rows.length
    · rw [if_pos hi, List.getD_eq_getElem _ _ (by rw [List.length_zipWith]; omega),
        List.getElem_zipWith, List.getD_eq_getElem _ _ hi,
        List.getD_eq_getElem _ _ (by omega)]
    · rw [if_neg hi, List.getD_eq_default _ _ (by rw [List.length_zipWith]; omega)]
  rw [hRi]
  by_cases hj : j < dc.length
  · rw [List.getD_append _ _ _ _ hj, hpt i j]
    by_cases hi : i < rows.length
    · have hjl : j < ((rows.getD i DataRow.dflt).columns).length := by
        rw [List.getD_eq_getElem _ _ hi, hrow _ (List.getElem_mem hi)]
        exact hj
      rw [if_pos hi]
      dsimp only
      rw [List.getD_append _ _ _ _ hjl]
    · rw [if_neg hi, List.getD_eq_default rows DataRow.dflt (by omega)]
  · by_cases hjeq : j = dc.length
    · subst hjeq
      have h1 : (dc ++ [values]).getD dc.length [] = values := by
        rw [List.getD_eq_getElem _ _ (by simp)]
        exact List.getElem_concat_length _ _ _ rfl _
      rw [h1]
      by_cases hi : i < rows.length
      · have hcl : (rows.getD i DataRow.dflt).columns.length = dc.length := by
          rw [List.getD_eq_getElem _ _ hi]
          exact hrow _ (List.getElem_mem hi)
        rw [if_pos hi]
        dsimp only
        rw [← hcl]
        have h2 : ((rows.getD i DataRow.dflt).columns ++
            [values.getD i DatumVal.dflt]).getD
            ((rows.getD i DataRow.dflt).columns.length) DatumVal.dflt =
            values.getD i DatumVal.dflt := by
          rw [List.getD_eq_getElem _ _ (by simp)]
          exact List.getElem_concat_length _ _ _ rfl _
        rw [h2]
      · rw [if_neg hi, List.getD_eq_default values DatumVal.dflt (by omega)]
        rfl
    · rw [List.getD_eq_default (dc ++ [values]) [] (by simp; omega)]
      by_cases hi : i < rows.length
      · have hcl : (rows.getD i DataRow.dflt).columns.length = dc.length := by
          rw [List.getD_eq_getElem _ _ hi]
          exact hrow _ (List.getElem_mem hi)
        rw [if_pos hi]
        dsimp only
        rw [List.getD_eq_default ((rows.getD i DataRow.dflt).columns ++
          [values.getD i DatumVal.dflt]) DatumVal.dflt
          (by rw [List.length_append, hcl, List.length_singleton]; omega)]
        rfl
      · rw [if_neg hi]
        rfl

theorem equiv_appendNewColumn (c : FrameColsData) (r : FrameRowsData) (name : String)
    (t : DataType) (values : List DatumVal) (h : EquivFrames c r) :
    EquivFrames (frameColsAppendNewColumn c name t values)
      (frameRowsAppendNewColumn r name t values) := by
  obtain ⟨hm, hid, hclen, hrow, hcol, hzero, hpt⟩ := h
  have hex : c.columnExists name = r.columnExists name := by
    rw [FrameColsData.columnExists, FrameRowsData.columnExists, hm]
  have hsz : c.getSizeCols = r.getSizeCols := by
    rw [FrameColsData.getSizeCols, FrameRowsData.getSizeCols, hm]
  have hsr : c.getSizeRows = r.getSizeRows := by
    rw [FrameColsData.getSizeRows, FrameRowsData.getSizeRows, hid, List.length_map]
  rw [frameColsAppendNewColumn, frameRowsAppendNewColumn, hex, hsz, hsr]
  by_cases h1 : r.columnExists name = true
  · rw [if_pos h1, if_pos h1]
    exact ⟨hm, hid, hclen, hrow, hcol, hzero, hpt⟩
  · rw [if_neg h1, if_neg h1]
    by_cases h2 : 0 < r.getSizeCols ∧ values.length ≠ r.getSizeRows
    · rw [if_pos h2, if_pos h2]
      exact ⟨hm, hid, hclen, hrow, hcol, hzero, hpt⟩
    · rw [if_neg h2, if_neg h2]
      by_cases hc0 : r.getSizeCols = 0
      · rw [if_pos hc0, if_pos hc0]
        have hc0r : r.columnMetadata.columns.length = 0 := hc0
        have hc0c : c.columnMetadata.columns.length = 0 := by
          rw [hm]
          exact hc0r
        dsimp only [FrameColsData.initialise, FrameRowsData.initialise]
        refine ⟨?_, ?_, ?_, ?_, ?_, ?_, ?_⟩
        · dsimp only
          rw [hm]
        · dsimp only
          refine List.ext_getElem (by simp) ?_
          intro k h1b h2b
          rw [List.getElem_map, List.getElem_range, List.getElem_map,
            List.getElem_zipWith, List.getElem_map, List.getElem_range]
        · dsimp only
          rw [(foldl_updateMaxId_spec Int.ofNat (List.range values.length)
            c.columnMetadata).2]
          simp [hc0c]
        · intro row hr2
          dsimp only at hr2 ⊢
          obtain ⟨k, hk, hre⟩ := List.mem_iff_getElem.mp hr2
          rw [List.getElem_zipWith] at hre
          have hkr : k < values.length := by
            rw [List.length_zipWith] at hk
            simp at hk
            omega
          rw [← hre]
          dsimp only
          rw [List.getElem_map, List.getElem_range,
            (foldl_updateMaxId_spec Int.ofNat (List.range values.length)
              c.columnMetadata).2]
          simp [hc0c]
        · intro col hc2
          dsimp only at hc2 ⊢
          rw [List.nil_append, List.mem_singleton] at hc2
          subst hc2
          simp
        · intro h0
          dsimp only at h0
          exfalso
          rw [List.length_append] at h0
          simp at h0
        · dsimp only
          rw [List.nil_append]
          have hfresh := pointwise_appendCol []
            ((List.range values.length).map (fun j2 => (⟨Int.ofNat j2, []⟩ : DataRow)))
            values ?_ (by simp) ?_
          · intro i j
            have hx := hfresh i j
            rw [List.nil_append] at hx
            exact hx
          · intro row hr2
            obtain ⟨x, hx, he⟩ := List.mem_map.mp hr2
            rw [← he]
            rfl
          · intro i2 j2
            show DatumVal.dflt = _
            by_cases hi : i2 < values.length
            · rw [List.getD_eq_getElem ((List.range values.length).map
                  (fun j3 => (⟨Int.ofNat j3, []⟩ : DataRow))) DataRow.dflt
                  (by simpa using hi),
                List.getElem_map, List.getElem_range]
              rfl
            · rw [List.getD_eq_default ((List.range values.length).map
                  (fun j3 => (⟨Int.ofNat j3, []⟩ : DataRow))) DataRow.dflt
                  (by simpa using Nat.le_of_not_lt hi)]
              rfl
      · rw [if_neg hc0, if_neg hc0]
        have hpos : 0 < r.getSizeCols := Nat.pos_of_ne_zero hc0
        have hvn : values.length = r.dataRows.length := by
          by_contra hne
          exact h2 ⟨hpos, hne⟩
        refine ⟨?_, ?_, ?_, ?_, ?_, ?_, ?_⟩
        · dsimp only
          rw [hm]
        · dsimp only
          have hmap : (List.zipWith (fun row v => (⟨row.id, row.columns ++ [v]⟩ :
              DataRow)) r.dataRows values).map DataRow.id =
              r.dataRows.map DataRow.id := by
            refine List.ext_getElem ?_ ?_
            · rw [List.length_map, List.length_map, List.length_zipWith]
              omega
            · intro k h1b h2b
              rw [List.getElem_map, List.getElem_map, List.getElem_zipWith]
          rw [hmap]
          exact hid
        · dsimp only
          simp [hclen]
        · intro row hr2
          dsimp only at hr2 ⊢
          obtain ⟨k, hk, hre⟩ := List.mem_iff_getElem.mp hr2
          rw [List.getElem_zipWith] at hre
          have hkr : k < r.dataRows.length := by
            rw [List.length_zipWith] at hk
            omega
          rw [← hre]
          dsimp only
          rw [List.length_append, hrow _ (List.getElem_mem hkr)]
          simp
        · intro col hc2
          dsimp only at hc2 ⊢
          rw [List.length_zipWith]
          rcases List.mem_append.mp hc2 with h3 | h3
          · rw [hcol col h3]
            omega
          · rw [List.mem_singleton] at h3
            subst h3
            omega
        · intro h0
          dsimp only at h0
          exfalso
          rw [List.length_append] at h0
          simp at h0
        · dsimp only
          refine pointwise_appendCol c.dataColumns r.dataRows values ?_ hvn hpt
          intro row hr2
          rw [hrow row hr2, hclen]

theorem equiv_removeRow (c : FrameColsData) (r : FrameRowsData) (i : Int)
    (h : EquivFrames c r) :
    EquivFrames (frameColsRemoveRow c i) (frameRowsRemoveRow r i) := by
  obtain ⟨hm, hid, hclen, hrow, hcol, hzero, hpt⟩ := h
  have hsr : c.getSizeRows = r.getSizeRows := by
    rw [FrameColsData.getSizeRows, FrameRowsData.getSizeRows, hid, List.length_map]
  rw [frameColsRemoveRow, frameRowsRemoveRow, hsr]
  by_cases hg : 0 ≤ i ∧ i < Int.ofNat r.getSizeRows
  · rw [if_pos hg, if_pos hg]
    rw [FrameColsData.removeRow, FrameRowsData.removeRow]
    have hkn : i.toNat < r.dataRows.length := by
      have h2 := hg.2
      rw [FrameRowsData.getSizeRows] at h2
      have h3 : i < (r.dataRows.length : Int) := h2
      have h4 := hg.1
      omega
    refine ⟨?_, ?_, ?_, ?_, ?_, ?_, ?_⟩
    · exact hm
    · dsimp only
      rw [hid, map_eraseIdx]
    · dsimp only
      rw [List.length_map]
      exact hclen
    · intro row hr2
      dsimp only at hr2 ⊢
      exact hrow row (List.mem_of_mem_eraseIdx hr2)
    · intro col hc2
      dsimp only at hc2 ⊢
      obtain ⟨x, hx, he⟩ := List.mem_map.mp hc2
      rw [← he, List.length_eraseIdx, List.length_eraseIdx, hcol x hx]
    · intro h0
      dsimp only at h0 ⊢
      rw [hzero h0]
      rfl
    · intro i2 j
      dsimp only
      have hL : ((c.dataColumns.map (fun col => col.eraseIdx i.toNat)).getD j []) =
          (c.dataColumns.getD j []).eraseIdx i.toNat :=
        getD_map2 (fun col => col.eraseIdx i.toNat) c.dataColumns [] [] rfl j
      rw [hL, getD_eraseIdx, getD_eraseIdx]
      by_cases hik : i2 < i.toNat
      · rw [if_pos hik, if_pos hik]
        exact hpt i2 j
      · rw [if_neg hik, if_neg hik]
        exact hpt (i2 + 1) j
  · rw [if_neg hg, if_neg hg]
    exact ⟨hm, hid, hclen, hrow, hcol, hzero, hpt⟩

theorem equiv_removeColumnNorm (c : FrameColsData) (r : FrameRowsData) (k : Nat)
    (h : EquivFrames c r) :
    EquivFrames (c.removeColumn k).normEmpty (r.removeColumn k).normEmpty := by
  obtain ⟨hm, hid, hclen, hrow, hcol, hzero, hpt⟩ := h
  have e1 : (c.removeColumn k).columnMetadata = (r.removeColumn k).columnMetadata := by
    rw [FrameColsData.removeColumn, FrameRowsData.removeColumn]
    dsimp only
    rw [hm]
  have e2 : (c.removeColumn k).ids = (r.removeColumn k).dataRows.map DataRow.id := by
    rw [FrameColsData.removeColumn, FrameRowsData.removeColumn]
    dsimp only
    rw [List.map_map]
    have hmm : r.dataRows.map (DataRow.id ∘ fun row =>
        (⟨row.id, row.columns.eraseIdx k⟩ : DataRow)) = r.dataRows.map DataRow.id :=
      List.map_congr_left (fun a ha => rfl)
    rw [hmm]
    exact hid
  have e3 : (c.removeColumn k).dataColumns.length =
      (c.removeColumn k).columnMetadata.columns.length := by
    rw [FrameColsData.removeColumn]
    dsimp only
    rw [List.length_eraseIdx, List.length_eraseIdx, hclen]
  have e4 : ∀ row ∈ (r.removeColumn k).dataRows,
      row.columns.length = (c.removeColumn k).columnMetadata.columns.length := by
    rw [FrameColsData.removeColumn, FrameRowsData.removeColumn]
    dsimp only
    intro row hr2
    obtain ⟨x, hx, he⟩ := List.mem_map.mp hr2
    rw [← he]
    dsimp only
    rw [List.length_eraseIdx, List.length_eraseIdx, hrow x hx]
  have e5 : ∀ col ∈ (c.removeColumn k).dataColumns,
      col.length = (r.removeColumn k).dataRows.length := by
    rw [FrameColsData.removeColumn, FrameRowsData.removeColumn]
    dsimp only
    intro col hc2
    rw [List.length_map]
    exact hcol col (List.mem_of_mem_eraseIdx hc2)
  have e7 : ∀ i j : Nat, ((c.removeColumn k).dataColumns.getD j []).getD i
      DatumVal.dflt = ((r.removeColumn k).dataRows.getD i DataRow.dflt).columns.getD j
      DatumVal.dflt := by
    rw [FrameColsData.removeColumn, FrameRowsData.removeColumn]
    dsimp only
    intro i j
    have hR : ((r.dataRows.map (fun row => (⟨row.id, row.columns.eraseIdx k⟩ :
        DataRow))).getD i DataRow.dflt) =
        (⟨(r.dataRows.getD i DataRow.dflt).id,
          (r.dataRows.getD i DataRow.dflt).columns.eraseIdx k⟩ : DataRow) :=
      getD_map2 _ r.dataRows DataRow.dflt DataRow.dflt rfl i
    rw [hR, getD_eraseIdx]
    dsimp only
    rw [getD_eraseIdx]
    by_cases hjk : j < k
    · rw [if_pos hjk, if_pos hjk]
      exact hpt i j
    · rw [if_neg hjk, if_neg hjk]
      exact hpt i (j + 1)
  have hsz2 : (c.removeColumn k).getSizeCols = (r.removeColumn k).getSizeCols := by
    rw [FrameColsData.getSizeCols, FrameRowsData.getSizeCols, e1]
  rw [FrameColsData.normEmpty, FrameRowsData.normEmpty, hsz2]
  by_cases h0 : (r.removeColumn k).getSizeCols = 0
  · rw [if_pos h0, if_pos h0]
    exact equiv_empty
  · rw [if_neg h0, if_neg h0]
    refine ⟨e1, e2, e3, e4, e5, ?_, e7⟩
    intro h0b
    exfalso
    apply h0
    rw [FrameRowsData.getSizeCols, ← e1]
    exact h0b

theorem equiv_removeColumnByName (c : FrameColsData) (r : FrameRowsData)
    (name : String) (h : EquivFrames c r) :
    EquivFrames (frameColsRemoveColumnByName c name)
      (frameRowsRemoveColumnByName r name) := by
  have hm : c.columnMetadata = r.columnMetadata := h.1
  have hex : c.columnExists name = r.columnExists name := by
    rw [FrameColsData.columnExists, FrameRowsData.columnExists, hm]
  have hgi : c.getIndex name = r.getIndex name := by
    rw [FrameColsData.getIndex, FrameRowsData.getIndex, hm]
  rw [frameColsRemoveColumnByName, frameRowsRemoveColumnByName, hex, hgi]
  by_cases hex2 : r.columnExists name = true
  · rw [if_pos hex2, if_pos hex2]
    cases hgi2 : r.getIndex name with
    | none => exact h
    | some index =>
      dsimp only
      exact equiv_removeColumnNorm c r index h
  · rw [if_neg hex2, if_neg hex2]
    exact h

theorem equiv_removeColumnByIndex (c : FrameColsData) (r : FrameRowsData) (i : Int)
    (h : EquivFrames c r) :
    EquivFrames (frameColsRemoveColumnByIndex c i)
      (frameRowsRemoveColumnByIndex r i) := by
  have hm : c.columnMetadata = r.columnMetadata := h.1
  have hsz : c.getSizeCols = r.getSizeCols := by
    rw [FrameColsData.getSizeCols, FrameRowsData.getSizeCols, hm]
  rw [frameColsRemoveColumnByIndex, frameRowsRemoveColumnByIndex, hsz]
  by_cases hg : 0 ≤ i ∧ i < Int.ofNat r.getSizeCols
  · rw [if_pos hg, if_pos hg]
    exact equiv_removeColumnNorm c r i.toNat h
  · rw [if_neg hg, if_neg hg]
    exact h

theorem equiv_sortApply (c : FrameColsData) (r : FrameRowsData) (index : Nat)
    (func : DatumVal → DatumVal → Bool) (h : EquivFrames c r) :
    EquivFrames
      { c with
        ids := applyCyclePerm 0 (stdSortModel (fun i j =>
          func ((c.getDataColumn index).getD i DatumVal.dflt)
               ((c.getDataColumn index).getD j DatumVal.dflt))
          (List.range c.ids.length)) c.ids,
        dataColumns := c.dataColumns.map (fun col2 => applyCyclePerm DatumVal.dflt
          (stdSortModel (fun i j =>
            func ((c.getDataColumn index).getD i DatumVal.dflt)
                 ((c.getDataColumn index).getD j DatumVal.dflt))
            (List.range c.ids.length)) col2) }
      { r with dataRows := reorderDataRows func index r.dataRows } := by
  obtain ⟨hm, hid, hclen, hrow, hcol, hzero, hpt⟩ := h
  have hn : c.ids.length = r.dataRows.length := by
    rw [hid, List.length_map]
  have hfeq : (fun i j : Nat =>
      func ((c.getDataColumn index).getD i DatumVal.dflt)
           ((c.getDataColumn index).getD j DatumVal.dflt)) =
      (fun i j : Nat =>
        func ((r.dataRows.getD i DataRow.dflt).getColumn index)
             ((r.dataRows.getD j DataRow.dflt).getColumn index)) := by
    funext i j
    simp only [FrameColsData.getDataColumn, DataRow.getColumn, hpt]
  rw [hfeq, hn]
  set S := stdSortModel (fun i j : Nat =>
      func ((r.dataRows.getD i DataRow.dflt).getColumn index)
           ((r.dataRows.getD j DataRow.dflt).getColumn index))
    (List.range r.dataRows.length) with hSdef
  have hSperm : S.Perm (List.range r.dataRows.length) := stdSortModel_perm _ _
  have hSlen : S.length = r.dataRows.length := by
    rw [hSperm.length_eq, List.length_range]
  have hSbound : ∀ x ∈ S, x < r.dataRows.length := by
    intro x hx
    exact List.mem_range.mp (hSperm.mem_iff.mp hx)
  have hSnd : S.Nodup := hSperm.nodup_iff.mpr (List.nodup_range _)
  have hrnaive : reorderDataRows func index r.dataRows =
      S.map (fun j => r.dataRows.getD j DataRow.dflt) := by
    rw [reorderDataRows_eq_naive, reorderNaive, sortedRowIndices, ← hSdef]
  have hids : applyCyclePerm 0 S c.ids = S.map (fun j => c.ids.getD j 0) :=
    applyCyclePerm_eq_map 0 S c.ids (by rw [hSlen, hn])
      (by intro x hx; rw [hn]; exact hSbound x hx) hSnd
  refine ⟨?_, ?_, ?_, ?_, ?_, ?_, ?_⟩
  · dsimp only
    exact hm
  · dsimp only
    rw [hids, hrnaive, List.map_map]
    refine List.map_congr_left ?_
    intro x hx
    show c.ids.getD x 0 = (r.dataRows.getD x DataRow.dflt).id
    rw [hid]
    exact getD_map2 DataRow.id r.dataRows DataRow.dflt 0 rfl x
  · dsimp only
    rw [List.length_map]
    exact hclen
  · intro row hr2
    dsimp only at hr2 ⊢
    rw [hrnaive] at hr2
    obtain ⟨x, hx, he⟩ := List.mem_map.mp hr2
    rw [← he]
    have hxn := hSbound x hx
    rw [List.getD_eq_getElem _ _ hxn]
    exact hrow _ (List.getElem_mem hxn)
  · intro col hc2
    dsimp only at hc2 ⊢
    obtain ⟨x, hx, he⟩ := List.mem_map.mp hc2
    rw [← he, applyCyclePerm_eq_map DatumVal.dflt S x
      (by rw [hSlen, hcol x hx]) (by intro y hy; rw [hcol x hx]; exact hSbound y hy)
      hSnd, List.length_map, hrnaive, List.length_map]
  · intro h0
    dsimp only at h0 ⊢
    rw [hrnaive]
    have hS0 : S = [] := List.length_eq_zero.mp (by rw [hSlen, hzero h0]; rfl)
    rw [hS0]
    rfl
  · intro i j
    dsimp only
    rw [hrnaive]
    by_cases hi : i < r.dataRows.length
    · have hiS : i < S.length := by omega
      have hR2 : (S.map (fun j2 => r.dataRows.getD j2 DataRow.dflt)).getD i
          DataRow.dflt = r.dataRows.getD S[i] DataRow.dflt := by
        rw [List.getD_eq_getElem _ _ (by simpa using hiS), List.getElem_map]
      rw [hR2]
      by_cases hj : j < c.dataColumns.length
      · have hmem : c.dataColumns.getD j [] ∈ c.dataColumns := by
          rw [List.getD_eq_getElem _ _ hj]
          exact List.getElem_mem hj
        have hcl2 : (c.dataColumns.getD j []).length = r.dataRows.length :=
          hcol _ hmem
        have hL2 : ((c.dataColumns.map (fun col2 => applyCyclePerm DatumVal.dflt S
            col2)).getD j []) = applyCyclePerm DatumVal.dflt S
            (c.dataColumns.getD j []) := by
          rw [List.getD_eq_getElem _ _ (by simpa using hj), List.getElem_map,
            List.getD_eq_getElem _ _ hj]
        rw [hL2, applyCyclePerm_eq_map DatumVal.dflt S (c.dataColumns.getD j [])
          (by rw [hSlen, hcl2]) (by intro y hy; rw [hcl2]; exact hSbound y hy) hSnd]
        have hL3 : ((S.map (fun j2 => (c.dataColumns.getD j []).getD j2
            DatumVal.dflt)).getD i DatumVal.dflt) =
            (c.dataColumns.getD j []).getD S[i] DatumVal.dflt := by
          rw [List.getD_eq_getElem _ _ (by simpa using hiS), List.getElem_map]
        rw [hL3]
        exact hpt S[i] j
      · rw [List.getD_eq_default (c.dataColumns.map (fun col2 =>
          applyCyclePerm DatumVal.dflt S col2)) []
          (by simpa using Nat.le_of_not_lt hj)]
        have hSi : S[i] < r.dataRows.length := hSbound _ (List.getElem_mem hiS)
        rw [List.getD_eq_getElem r.dataRows _ hSi,
          List.getD_eq_default (r.dataRows[S[i]].columns) DatumVal.dflt
            (by rw [hrow _ (List.getElem_mem hSi), ← hclen]; omega)]
        rfl
    · rw [List.getD_eq_default (S.map (fun j2 => r.dataRows.getD j2 DataRow.dflt))
        DataRow.dflt (by rw [List.length_map, hSlen]; omega)]
      by_cases hj : j < c.dataColumns.length
      · have hmem : c.dataColumns.getD j [] ∈ c.dataColumns := by
          rw [List.getD_eq_getElem _ _ hj]
          exact List.getElem_mem hj
        have hcl2 : (c.dataColumns.getD j []).length = r.dataRows.length :=
          hcol _ hmem
        have hL2 : ((c.dataColumns.map (fun col2 => applyCyclePerm DatumVal.dflt S
            col2)).getD j []) = applyCyclePerm DatumVal.dflt S
            (c.dataColumns.getD j []) := by
          rw [List.getD_eq_getElem _ _ (by simpa using hj), List.getElem_map,
            List.getD_eq_getElem _ _ hj]
        rw [hL2, applyCyclePerm_eq_map DatumVal.dflt S (c.dataColumns.getD j [])
          (by rw [hSlen, hcl2]) (by intro y hy; rw [hcl2]; exact hSbound y hy) hSnd,
          List.getD_eq_default (S.map (fun j2 => (c.dataColumns.getD j []).getD j2
            DatumVal.dflt)) DatumVal.dflt (by rw [List.length_map, hSlen]; omega)]
        rfl
      · rw [List.getD_eq_default (c.dataColumns.map (fun col2 =>
          applyCyclePerm DatumVal.dflt S col2)) []
          (by simpa using Nat.le_of_not_lt hj)]
        rfl

theorem equiv_sortRows (c : FrameColsData) (r : FrameRowsData) (name : String)
    (order : SortOrder) (h : EquivFrames c r) :
    EquivFrames (c.sortRows name order) (r.sortRows name order) := by
  have hm : c.columnMetadata = r.columnMetadata := h.1
  have hex : c.columnExists name = r.columnExists name := by
    rw [FrameColsData.columnExists, FrameRowsData.columnExists, hm]
  have hgi : c.getIndex name = r.getIndex name := by
    rw [FrameColsData.getIndex, FrameRowsData.getIndex, hm]
  rw [FrameColsData.sortRows.eq_def, FrameRowsData.sortRows.eq_def, hex, hgi]
  by_cases hex2 : r.columnExists name = true
  · rw [if_pos hex2, if_pos hex2]
    cases hgi2 : r.getIndex name with
    | none => exact h
    | some index =>
      cases order with
      | eAscending =>
        dsimp only
        exact equiv_sortApply c r index (fun a b => compareDatums a b) h
      | eDescending =>
        dsimp only
        exact equiv_sortApply c r index (fun a b => compareDatums b a) h
  · rw [if_neg hex2, if_neg hex2]
    exact h

theorem equiv_applyOp (c : FrameColsData) (r : FrameRowsData) (op : Op)
    (h : EquivFrames c r) : EquivFrames (applyOpCols c op) (applyOpRows r op) := by
  cases op with
  | configColumns cols => exact equiv_configColumns c r cols h
  | appendNewRow args => exact equiv_appendNewRow c r args h
  | appendNewColumn name t values => exact equiv_appendNewColumn c r name t values h
  | setColumn name t values => exact equiv_setColumn c r name t values h
  | removeRow i => exact equiv_removeRow c r i h
  | removeColumnByName name => exact equiv_removeColumnByName c r name h
  | removeColumnByIndex i => exact equiv_removeColumnByIndex c r i h
  | sortRows name order => exact equiv_sortRows c r name order h
  | clear => exact equiv_empty

theorem equiv_applyOps (ops : List Op) : ∀ (c : FrameColsData) (r : FrameRowsData),
    EquivFrames c r → EquivFrames (applyOpsCols c ops) (applyOpsRows r ops) := by
  induction ops with
  | nil => intro c r h; exact h
  | cons op rest ih =>
    intro c r h
    exact ih (applyOpCols c op) (applyOpRows r op) (equiv_applyOp c r op h)

/-- C1: for every sequence of configure / append-row / append-column /
set-column / remove-row / remove-column / sort / clear operations applied
identically to the two layouts, the column-priority frame and the
row-priority frame produce identical print() output after the sequence. -/
theorem c1_layout_equivalence (ops : List Op) :
    (applyOpsCols FrameColsData.empty ops).print =
      (applyOpsRows FrameRowsData.empty ops).print :=
  equiv_print _ _
    (equiv_applyOps ops FrameColsData.empty FrameRowsData.empty equiv_empty)

end osdf

